import Mathlib

/-!
# PsiActionSelectionAgent: plan flattening and the cognitive cycle

A shallow embedding of
`opencog/embodiment/Control/OperationalAvatarController/PsiActionSelectionAgent.cc`
(built with `HAVE_GUILE`).

Modelling conventions.

* A `Handle` is identified with the immutable atom it designates (its type,
  its name or its outgoing set); `Handle.UNDEFINED` is the undefined handle.
  `addNode` / `addLink` are upserts that return the handle of the atom with
  the given content, so they are plain constructor applications here.
* Everything the agent reads from its collaborators during one call of `run`
  (procedure interpreter, scheme evaluator, AtomSpace references, the clock,
  the random generator, the configuration) is a field of `World`.
* Every call the agent makes on a collaborator that has an effect there is
  recorded, in program order, as an `Event`; so are the entry into
  `executeAction` and the return of `getPlan`.
* Logging and console output are not modelled.
* Truth-value means are exact rationals and the test `getMean() < 0.9` is
  the test against `9 / 10`: the double nearest to 0.9 lies above it and the
  double before that one below it, so a float or double is below the literal
  exactly when its value is below `9 / 10`.
* `time_t` and `long` values are unbounded integers.
* Reading `back()` of an empty vector and `rand_element` of an empty
  container are undefined behaviour: the result `none`, and in `run` the
  flow `Flow.undefinedBehaviour`.
-/

namespace PsiActionSelectionAgent

/-! ## Atoms -/

/-- Modelled from the spec: the atom types of the knowledge store (`atom_types.h`
is not among the sources). Those named in the source file; `other` stands for
every other type. -/
inductive AtomType where
  | NOTYPE
  | PREDICATE_NODE
  | CONCEPT_NODE
  | EVALUATION_LINK
  | LIST_LINK
  | REFERENCE_LINK
  | EXECUTION_LINK
  | AND_LINK
  | SEQUENTIAL_AND_LINK
  | OR_LINK
  | SPEECH_ACT_SCHEMA_NODE
  | NUMBER_NODE
  | UTTERANCE_NODE
  | SENTENCE_NODE
  | OBJECT_NODE
  | GROUNDED_PREDICATE_NODE
  | other (code : Nat)
  deriving DecidableEq, Repr

/-- Modelled from the spec: the handles of the knowledge store (`Handle.h` and
the AtomSpace are not among the sources), identified with the atoms they
designate. -/
inductive Handle where
  | UNDEFINED : Handle
  | node (t : AtomType) (name : String) : Handle
  | link (t : AtomType) (outgoing : List Handle) : Handle

abbrev HandleSeq := List Handle

/-- Modelled from the spec: the knowledge-store read `atomspace.getType(h)`. -/
def getType : Handle → AtomType
  | .UNDEFINED => .NOTYPE
  | .node t _ => t
  | .link t _ => t

/-- Modelled from the spec: the knowledge-store read `atomspace.getOutgoing(h)`,
the outgoing set (empty for a node). -/
def getOutgoing : Handle → HandleSeq
  | .link _ outs => outs
  | _ => []

/-- Modelled from the spec: the knowledge-store read `atomspace.getOutgoing(h, idx)`;
an index outside the outgoing set gives the undefined handle. -/
def getOutgoingAt (h : Handle) (idx : Nat) : Handle :=
  ((getOutgoing h).get? idx).getD .UNDEFINED

/-- Modelled from the spec: the knowledge-store read `atomspace.getName(h)` (empty
for a link). -/
def getName : Handle → String
  | .node _ name => name
  | _ => ""

/-- Modelled from the spec: the knowledge-store read `atomspace.getArity(h)`. -/
def getArity (h : Handle) : Nat := (getOutgoing h).length

/-! ## Random choice -/

/-- Modelled from the spec: the global random generator `randGen()` of
`opencog/util/random.h` (not among the sources), a stream of raw draws and the
position of the next one. -/
structure RandGen where
  draws : Nat → Nat
  pos : Nat

/-- Modelled from the spec: the call `randint(n)`, an index below `n`, consuming
one draw. -/
def RandGen.randint (g : RandGen) (n : Nat) : Nat × RandGen :=
  (g.draws g.pos % n, { g with pos := g.pos + 1 })

/-- Modelled from the spec: the call `rand_element(c)` of `opencog/util/random.h`
(not among the sources), one element of `c` chosen at random among its
elements; undefined (`none`) for an empty container. -/
def rand_element (c : HandleSeq) (g : RandGen) : Option (Handle × RandGen) :=
  match c.get? (g.randint c.length).1 with
  | some h => some (h, (g.randint c.length).2)
  | none => none

/-! ## getActions -/

mutual
/-- The method `getActions(hStep, actions)` (lines 117-135). The result is the
new content of `actions` and the generator after the draws made; `none` is
undefined behaviour (`rand_element` of an empty outgoing set). -/
def getActions (hStep : Handle) (actions : HandleSeq) (g : RandGen) :
    Option (HandleSeq × RandGen) :=
  match hStep with
  | .link t outs =>
    if t = .EXECUTION_LINK then
      -- actions.insert(actions.begin(), hStep)
      some (Handle.link t outs :: actions, g)
    else if t = .AND_LINK ∨ t = .SEQUENTIAL_AND_LINK then
      getActionsFor outs actions g
    else if t = .OR_LINK then
      getActionsAt outs (g.randint outs.length).1 actions (g.randint outs.length).2
    else
      some (actions, g)
  | .node t name =>
    -- an atom without outgoing set: the loop has no iteration, and
    -- rand_element is applied to an empty container
    if t = .EXECUTION_LINK then
      some (Handle.node t name :: actions, g)
    else if t = .AND_LINK ∨ t = .SEQUENTIAL_AND_LINK then
      some (actions, g)
    else if t = .OR_LINK then
      none
    else
      some (actions, g)
  | .UNDEFINED => some (actions, g)
/-- The loop `for (Handle hOutgoing : getOutgoing(hStep)) getActions(hOutgoing, actions)`. -/
def getActionsFor (outs : HandleSeq) (actions : HandleSeq) (g : RandGen) :
    Option (HandleSeq × RandGen) :=
  match outs with
  | [] => some (actions, g)
  | h :: rest =>
    match getActions h actions g with
    | none => none
    | some (a, g1) => getActionsFor rest a g1
/-- The two statements `hRandomSelected = rand_element(outgoings)` and
`getActions(hRandomSelected, actions)`, for the drawn index `i`: `getActions`
on the element `i` of `outs` (undefined when there is none). -/
def getActionsAt (outs : HandleSeq) (i : Nat) (actions : HandleSeq) (g : RandGen) :
    Option (HandleSeq × RandGen) :=
  match outs, i with
  | [], _ => none
  | h :: _, 0 => getActions h actions g
  | _ :: rest, i + 1 => getActionsAt rest i actions g
end

/-- The pair `v.back()` and `v.pop_back()` of a vector: the last element and the
rest; `none` for an empty vector, where `back()` is undefined. -/
def popBack {α : Type} (v : List α) : Option (α × List α) :=
  match v.getLast? with
  | some x => some (x, v.dropLast)
  | none => none

/-- The elements obtained by popping from the back `n` times, in the order
they are popped (stopping early when the vector is empty). -/
def drainBack {α : Type} : Nat → List α → List α
  | 0, _ => []
  | n + 1, v =>
    match popBack v with
    | some (x, rest) => x :: drainBack n rest
    | none => []

/-! ## The flattening contract -/

mutual
/-- The contract `flatten(root)` of the plan-tree interpreter, in the words of
its description: a leaf is appended directly; the children of a sequence are
flattened in order, depth first; of an alternative exactly one child, chosen
at random when the node is visited, is flattened; any other node flattens to
nothing. The result is the ordered list of actions and the generator after
the choices made. -/
def flatten (root : Handle) (g : RandGen) : HandleSeq × RandGen :=
  match root with
  | .link t children =>
    if t = .EXECUTION_LINK then ([Handle.link t children], g)
    else if t = .AND_LINK ∨ t = .SEQUENTIAL_AND_LINK then flattenSequence children g
    else if t = .OR_LINK then
      flattenChosen children (g.randint children.length).1 (g.randint children.length).2
    else ([], g)
  | .node _ _ => ([], g)
  | .UNDEFINED => ([], g)
/-- The children of a sequence, flattened in order. -/
def flattenSequence (children : HandleSeq) (g : RandGen) : HandleSeq × RandGen :=
  match children with
  | [] => ([], g)
  | c :: rest =>
    ((flatten c g).1 ++ (flattenSequence rest (flatten c g).2).1,
      (flattenSequence rest (flatten c g).2).2)
/-- The chosen child of an alternative, flattened. -/
def flattenChosen (children : HandleSeq) (i : Nat) (g : RandGen) : HandleSeq × RandGen :=
  match children, i with
  | [], _ => ([], g)
  | c :: _, 0 => flatten c g
  | _ :: rest, i + 1 => flattenChosen rest i g
end

mutual
/-- A plan tree: built only from leaves (`EXECUTION_LINK`), sequences
(`AND_LINK`, `SEQUENTIAL_AND_LINK`) and alternatives (`OR_LINK`) with at least
one child. -/
def isPlanTree (root : Handle) : Bool :=
  match root with
  | .link t children =>
    if t = .EXECUTION_LINK then true
    else if t = .AND_LINK ∨ t = .SEQUENTIAL_AND_LINK then arePlanTrees children
    else if t = .OR_LINK then !children.isEmpty && arePlanTrees children
    else false
  | .node _ _ => false
  | .UNDEFINED => false
/-- Every element is a plan tree. -/
def arePlanTrees (children : HandleSeq) : Bool :=
  match children with
  | [] => true
  | c :: rest => isPlanTree c && arePlanTrees rest
end

/-! ## Strings -/

/-- The character class of `std::isspace` in the classic locale, also the
class `\\s` of the regular expressions: space, tab, line feed, vertical tab,
form feed, carriage return. -/
def isspace (c : Char) : Bool :=
  c.toNat == 32 || (9 ≤ c.toNat && c.toNat ≤ 13)

/-- Whether `s` begins with the characters `p`. -/
def beginsWith : List Char → List Char → Bool
  | [], _ => true
  | _ :: _, [] => false
  | p :: ps, c :: cs => p == c && beginsWith ps cs

/-- The call `s.find(p)`: the first index at which `p` occurs in `s`, `none`
for `std::string::npos`. -/
def findSubstr (p : List Char) : List Char → Option Nat
  | [] => if beginsWith p [] then some 0 else none
  | c :: cs =>
    if beginsWith p (c :: cs) then some 0
    else (findSubstr p cs).map (· + 1)

/-- The call `boost::trim(s)`: white space removed at both ends. -/
def trim (s : List Char) : List Char :=
  ((s.dropWhile isspace).reverse.dropWhile isspace).reverse

/-- A match of `marker \\s* : \\s*` at the very start of `s`; the result is the
text that follows the match. -/
def matchMarker (marker : List Char) (s : List Char) : Option (List Char) :=
  if beginsWith marker s then
    match (s.drop marker.length).dropWhile isspace with
    | c :: rest => if c = ':' then some (rest.dropWhile isspace) else none
    | [] => none
  else none

/-- The leftmost match of `marker \\s* : \\s*` in `s`, as `boost::regex_search`
finds it; the result is the text that follows the match. -/
def searchMarker (marker : List Char) : List Char → Option (List Char)
  | [] => matchMarker marker []
  | c :: cs =>
    match matchMarker marker (c :: cs) with
    | some rest => some rest
    | none => searchMarker marker cs

/-- The sub-match `what[1]` of `regex_search(s, what, expListener)` with
`expListener = "TO\\s*:\\s*([^,\\s]*)[\\s|,]*"`; `none` when there is no match. -/
def expListener (s : String) : Option String :=
  (searchMarker "TO".data s.data).map
    fun rest => String.mk (rest.takeWhile fun c => !(c == ',' || isspace c))

/-- The sub-match `what[1]` of `regex_search(s, what, expContent)` with
`expContent = "CONTENT\\s*:\\s*(.*)"`; `none` when there is no match. -/
def expContent (s : String) : Option String :=
  (searchMarker "CONTENT".data s.data).map String.mk

/-! ## Collaborators -/

/-- Modelled from the spec: the values of `combo::id::action_result` that the
agent looks at (the combo library is not among the sources). -/
inductive ActionResult where
  | action_success
  | action_failure
  deriving DecidableEq, Repr

/-- Modelled from the spec: the values of `combo::builtin`, `logical_true` and
all the others. -/
inductive Builtin where
  | logical_true
  | otherBuiltin (code : Nat)
  deriving DecidableEq, Repr

/-- Modelled from the spec: the variant `combo::vertex`, as far as the agent
inspects or builds it. -/
inductive Vertex where
  | action_result (a : ActionResult)
  | builtin (b : Builtin)
  | contin (x : ℚ)
  | definite_object (s : String)
  | otherVertex (code : Nat)

/-- Modelled from the spec: the predicate `is_action_result` of combo. -/
def is_action_result : Vertex → Bool
  | .action_result _ => true
  | _ => false

/-- Modelled from the spec: the predicate `is_builtin` of combo. -/
def is_builtin : Vertex → Bool
  | .builtin _ => true
  | _ => false

/-- Modelled from the spec: the accessor `get_action` of combo, defined on an
action result. -/
def get_action : Vertex → Option ActionResult
  | .action_result a => some a
  | _ => none

/-- Modelled from the spec: the accessor `get_builtin` of combo, defined on a
builtin. -/
def get_builtin : Vertex → Option Builtin
  | .builtin b => some b
  | _ => none

/-- Calls of the agent on its collaborators, and the entry into `executeAction`. -/
inductive Event where
  /-- The call `oac.getPAI().setPendingActionPlansFailed()`. -/
  | setPendingActionPlansFailed
  /-- The call `procedureInterpreter.stopProcedure(id)`. -/
  | stopProcedure (id : Nat)
  /-- The call `evaluator1.eval(expression)`. -/
  | schemeEval (expression : String)
  /-- The call `languageTool.resolveLatestSentenceReference()`. -/
  | resolveLatestSentenceReference
  /-- The call `languageTool.answerQuestion()`. -/
  | answerQuestion
  /-- The call `procedureInterpreter.runProcedure(procedure, arguments)`. -/
  | runProcedure (name : String) (arguments : List Vertex)
  /-- The return of `getPlan()` with the given value. -/
  | getPlan (result : Bool)
  /-- The call `stimulateAtom(h, amount)`. -/
  | stimulateAtom (h : Handle) (amount : Nat)
  /-- The call `PsiRuleUtil::setCurrentDemandGoal(atomspace, h)`. -/
  | setCurrentDemandGoal (h : Handle)
  /-- The entry into `executeAction` on `h`, with `currentSchemaId` as it is then. -/
  | executeAction (currentSchemaId : Nat) (h : Handle)

/-- Whether the event is a call of `stopProcedure`. -/
def Event.isStopProcedure : Event → Bool
  | .stopProcedure _ => true
  | _ => false

/-- Whether the event is a call of `setPendingActionPlansFailed`. -/
def Event.isSetPendingActionPlansFailed : Event → Bool
  | .setPendingActionPlansFailed => true
  | _ => false

/-- Whether the event is an entry into `executeAction`. -/
def Event.isExecuteAction : Event → Bool
  | .executeAction _ _ => true
  | _ => false

/-- Whether the event is a call of `stimulateAtom`. -/
def Event.isStimulateAtom : Event → Bool
  | .stimulateAtom _ _ => true
  | _ => false

/-- Whether the event is a call of `setCurrentDemandGoal`. -/
def Event.isSetCurrentDemandGoal : Event → Bool
  | .setCurrentDemandGoal _ => true
  | _ => false

/-- Whether the event is a call of `runProcedure`. -/
def Event.isRunProcedure : Event → Bool
  | .runProcedure _ _ => true
  | _ => false

/-- What the collaborators answer during one call of `run`. -/
structure World where
  /-- The value of `_cogserver.getCycleCount()`. -/
  cycleCount : Nat
  /-- The value of `spaceServer().getLatestMapHandle()`. -/
  latestMapHandle : Handle
  /-- The value of `spaceServer().getLatestMap().containsObject(agent)`. -/
  mapContainsAgent : Bool
  /-- The tokens of the configuration entry `PSI_DEMANDS`. -/
  PSI_DEMANDS : List String
  /-- The configuration entry `PROCEDURE_EXECUTION_TIMEOUT`. -/
  PROCEDURE_EXECUTION_TIMEOUT : Int
  /-- The value of `time(NULL)` in the time-out test. -/
  timeAtCheck : Int
  /-- The value of `time(NULL)` after `executeAction`. -/
  timeAfterExecute : Int
  /-- The answers of `procedureInterpreter.isFailed`. -/
  isFailed : Nat → Bool
  /-- The answers of `procedureInterpreter.isFinished`. -/
  isFinished : Nat → Bool
  /-- The answers of `procedureInterpreter.getResult`. -/
  getResult : Nat → Vertex
  /-- The handle returned by `procedureInterpreter.runProcedure`. -/
  runProcedure : String → List Vertex → Nat
  /-- The value of `evaluator1.eval_error()` after evaluating an expression. -/
  eval_error : String → Bool
  /-- The value of `boost::lexical_cast<combo::contin_t>`; `none` when it throws. -/
  lexical_cast : String → Option ℚ
  /-- The mean of the truth value of the `plan_success` evaluation link. -/
  plan_success : ℚ
  /-- The reference of `plan_selected_demand_goal`. -/
  plan_selected_demand_goal : Handle
  /-- The reference of `plan_rule_list`. -/
  plan_rule_list : Handle
  /-- The reference of `plan_context_list`. -/
  plan_context_list : Handle
  /-- The reference of `plan_action_list`. -/
  plan_action_list : Handle
  /-- The reference of the utterance node `utterance_sentences`, read after the
  action has been run. -/
  utterance_sentences : Handle
  /-- The state of `randGen()` at the start of the call. -/
  rand : RandGen

/-! ## The agent -/

/-- The data members of `PsiActionSelectionAgent` that `run` uses, and `count`,
the function-local `static int count` of `run`. -/
structure Agent where
  cycleCount : Nat
  bInitialized : Bool
  currentSchemaId : Nat
  procedureExecutionTimeout : Int
  timeStartCurrentAction : Int
  psi_demand_goal_list : HandleSeq
  plan_selected_demand_goal : Handle
  plan_rule_list : HandleSeq
  plan_context_list : HandleSeq
  plan_action_list : HandleSeq
  temp_action_list : HandleSeq
  current_actions : HandleSeq
  current_action : Handle
  count : Int

/-- How a part of `run` ends. -/
inductive Flow where
  /-- Control goes on to the next statement. -/
  | next
  /-- The statement `return` of `run` was reached, or its end. -/
  | returned
  /-- An exception left the method (`bad_lexical_cast`). -/
  | threw
  /-- Undefined behaviour was reached. -/
  | undefinedBehaviour
  deriving DecidableEq, Repr

/-- The result of a part of `run`: the agent after it, the calls made, and how
it ended. -/
structure Step where
  agent : Agent
  events : List Event
  flow : Flow

/-- Sequential composition: `k` runs if `r` went on to the next statement. -/
def Step.andThen (r : Step) (k : Agent → Step) : Step :=
  match r.flow with
  | .next => ⟨(k r.agent).agent, r.events ++ (k r.agent).events, (k r.agent).flow⟩
  | .returned => r
  | .threw => r
  | .undefinedBehaviour => r

/-- The method `initDemandGoalList()` (lines 72-115): one evaluation link per
demand name. -/
def initDemandGoalList (s : Agent) (w : World) : Agent :=
  { s with psi_demand_goal_list :=
      w.PSI_DEMANDS.map fun demandName =>
        Handle.link .EVALUATION_LINK [Handle.node .PREDICATE_NODE (demandName ++ "DemandGoal")] }

/-- The method `init()` (lines 54-70). -/
def init (s : Agent) (w : World) : Agent :=
  { initDemandGoalList s w with
    currentSchemaId := 0
    procedureExecutionTimeout := w.PROCEDURE_EXECUTION_TIMEOUT
    bInitialized := true }

/-- The method `getPlan()` (lines 137-188): its return value and the agent
after it. -/
def getPlan (s : Agent) (w : World) : Bool × Agent :=
  if w.plan_success < 9 / 10 then (false, s)
  else
    (true,
      { s with
        plan_selected_demand_goal := w.plan_selected_demand_goal
        plan_rule_list := getOutgoing w.plan_rule_list
        plan_context_list := getOutgoing w.plan_context_list
        plan_action_list := getOutgoing w.plan_action_list
        temp_action_list := getOutgoing w.plan_action_list })

/-- The method `stimulateAtoms()` (lines 209-222): the calls it makes. -/
def stimulateAtoms (s : Agent) : List Event :=
  s.plan_rule_list.map (fun h => Event.stimulateAtom h 10)
    ++ s.plan_context_list.map (fun h => Event.stimulateAtom h 10)
    ++ s.plan_action_list.map (fun h => Event.stimulateAtom h 10)

/-- The text appended to `scheme_expression` for the arguments (lines 300-309). -/
def schemeArguments : HandleSeq → String
  | [] => ""
  | hArgument :: rest =>
    (if getType hArgument = .NUMBER_NODE then " " ++ getName hArgument
     else " \"" ++ getName hArgument ++ "\"") ++ schemeArguments rest

/-- The vector `schemaArguments` built for a combo procedure (lines 353-366);
`none` when `lexical_cast` throws. -/
def comboArguments (w : World) : HandleSeq → Option (List Vertex)
  | [] => some []
  | hArgument :: rest =>
    if getType hArgument = .NUMBER_NODE then
      match w.lexical_cast (getName hArgument) with
      | none => none
      | some num_c =>
        match comboArguments w rest with
        | none => none
        | some args => some (Vertex.contin num_c :: args)
    else
      match comboArguments w rest with
      | none => none
      | some args => some (Vertex.definite_object (getName hArgument) :: args)

/-- The action name and `bSchemeFunction` (lines 242-254): the text after the
first `scm:`, trimmed, if the name contains that marker. -/
def schemeFunctionName (name : String) : String × Bool :=
  match findSubstr "scm:".data name.data with
  | some scm_index => (String.mk (trim (name.data.drop (scm_index + 4))), true)
  | none => (name, false)

/-- The part of `executeAction` that runs the action (lines 237-395). -/
def runAction (s : Agent) (w : World) (hActionExecutionLink : Handle) : Step :=
  let actionType := getType (getOutgoingAt hActionExecutionLink 0)
  let actionName := (schemeFunctionName (getName (getOutgoingAt hActionExecutionLink 0))).1
  let bSchemeFunction := (schemeFunctionName (getName (getOutgoingAt hActionExecutionLink 0))).2
  let hArguments :=
    if getArity hActionExecutionLink = 2 then getOutgoing (getOutgoingAt hActionExecutionLink 1)
    else []
  if actionType = .SPEECH_ACT_SCHEMA_NODE then
    ⟨s, [Event.schemeEval ("( " ++ actionName ++ " )")], .next⟩
  else if bSchemeFunction then
    if actionName = "answer_question" then
      ⟨s, [Event.resolveLatestSentenceReference, Event.answerQuestion], .next⟩
    else
      ⟨s, [Event.schemeEval ("( " ++ (actionName ++ schemeArguments hArguments) ++ " )")], .next⟩
  else
    match comboArguments w hArguments with
    | none => ⟨s, [], .threw⟩
    | some schemaArguments =>
      ⟨{ s with currentSchemaId := w.runProcedure actionName schemaArguments },
        [Event.runProcedure actionName schemaArguments], .next⟩

/-- The say action built for one sentence node (lines 419-448), `none` when
the sentence is skipped because its content is empty. -/
def sayAction (hSentenceNode : Handle) : Option Handle :=
  let sentenceNodeName := getName hSentenceNode
  let listerner := (expListener sentenceNodeName).getD ""
  let content := (expContent sentenceNodeName).getD ""
  if content = "" then none
  else
    some (Handle.link .EXECUTION_LINK
      [Handle.node .GROUNDED_PREDICATE_NODE "say",
       Handle.link .LIST_LINK
         [Handle.node .SENTENCE_NODE content, Handle.node .OBJECT_NODE listerner]])

/-- The loop over the sentence nodes (lines 418-463): each say action is
inserted at the beginning of `temp_action_list`. -/
def insertSayActions : HandleSeq → HandleSeq → HandleSeq
  | [], temp_action_list => temp_action_list
  | hSentenceNode :: rest, temp_action_list =>
    match sayAction hSentenceNode with
    | none => insertSayActions rest temp_action_list
    | some hSpeakAction => insertSayActions rest (hSpeakAction :: temp_action_list)

/-- The part of `executeAction` that turns utterances into say actions and
resets the utterance node (lines 398-485). -/
def generateSayActions (s : Agent) (w : World) : Step :=
  ⟨{ s with temp_action_list :=
        insertSayActions (getOutgoing w.utterance_sentences) s.temp_action_list },
    [Event.schemeEval "( reset_utterance_node \"utterance_sentences\" )"], .next⟩

/-- The method `executeAction` (lines 224-486). -/
def executeAction (s : Agent) (w : World) (hActionExecutionLink : Handle) : Step :=
  Step.andThen
    ⟨s, [Event.executeAction s.currentSchemaId hActionExecutionLink], .next⟩
    fun s0 => Step.andThen (runAction s0 w hActionExecutionLink) fun s1 => generateSayActions s1 w

/-- The three outcomes that `run` tells apart in the result of a finished
procedure (lines 576-625). -/
inductive ResultStatus where
  | success
  | fail
  | unexpected
  deriving DecidableEq, Repr

/-- The test of lines 576-594 on the result of a finished procedure. -/
def resultStatus (result : Vertex) : ResultStatus :=
  if (is_action_result result && get_action result == some .action_success)
      || (is_builtin result && get_builtin result == some .logical_true) then
    .success
  else if is_action_result result || is_builtin result then
    .fail
  else
    .unexpected

/-- The check of the running action (lines 545-709). -/
def checkCurrentAction (s : Agent) (w : World) : Step :=
  if s.currentSchemaId ≠ 0 then
    let schemaFailed := w.isFailed s.currentSchemaId
    let schemaComplete := w.isFinished s.currentSchemaId
    if schemaComplete && !schemaFailed then
      -- each of the three branches only logs (recording the outcome is a TODO)
      match resultStatus (w.getResult s.currentSchemaId) with
      | .success => ⟨{ s with currentSchemaId := 0 }, [], .next⟩
      | .fail => ⟨{ s with currentSchemaId := 0 }, [], .next⟩
      | .unexpected => ⟨{ s with currentSchemaId := 0 }, [], .next⟩
    else if schemaFailed then
      ⟨{ s with current_actions := [], temp_action_list := [], currentSchemaId := 0 }, [], .next⟩
    else if w.timeAtCheck - s.timeStartCurrentAction > s.procedureExecutionTimeout then
      ⟨{ s with current_actions := [], temp_action_list := [], currentSchemaId := 0 },
        [Event.setPendingActionPlansFailed, Event.stopProcedure s.currentSchemaId], .next⟩
    else
      ⟨s, [], .returned⟩
  else
    ⟨s, [], .next⟩

/-- The planning block (lines 713-781). -/
def doPlanning (s : Agent) (w : World) : Step :=
  if s.temp_action_list.isEmpty && s.current_actions.isEmpty then
    -- if (count++ < 4) return; count = 0;
    if s.count < 4 then
      ⟨{ s with count := s.count + 1 }, [], .returned⟩
    else if w.eval_error "( do_planning )" then
      ⟨{ s with count := 0 }, [Event.schemeEval "( do_planning )"], .returned⟩
    else if (getPlan { s with count := 0 } w).1 = false then
      ⟨(getPlan { s with count := 0 } w).2,
        [Event.schemeEval "( do_planning )", Event.getPlan false], .returned⟩
    else
      ⟨(getPlan { s with count := 0 } w).2,
        [Event.schemeEval "( do_planning )", Event.getPlan true]
          ++ stimulateAtoms (getPlan { s with count := 0 } w).2
          ++ [Event.setCurrentDemandGoal
                (getPlan { s with count := 0 } w).2.plan_selected_demand_goal],
        .next⟩
  else
    ⟨s, [], .next⟩

/-- The choice of the next action (lines 784-802). -/
def nextAction (s : Agent) (w : World) : Step :=
  if !s.current_actions.isEmpty then
    match popBack s.current_actions with
    | some (a, rest) => ⟨{ s with current_action := a, current_actions := rest }, [], .next⟩
    | none => ⟨s, [], .undefinedBehaviour⟩
  else if !s.temp_action_list.isEmpty then
    match popBack s.temp_action_list with
    | none => ⟨s, [], .undefinedBehaviour⟩
    | some (hStep, restSteps) =>
      match getActions hStep s.current_actions w.rand with
      | none => ⟨s, [], .undefinedBehaviour⟩
      | some (actions, _) =>
        match popBack actions with
        | some (a, rest) =>
          ⟨{ s with temp_action_list := restSteps, current_action := a, current_actions := rest },
            [], .next⟩
        | none =>
          ⟨{ s with temp_action_list := restSteps, current_actions := actions },
            [], .undefinedBehaviour⟩
  else
    ⟨s, [], .returned⟩

/-- The end of `run` (lines 784-807): the next action is taken from the plan,
executed, and the start time recorded. -/
def dispatchNextAction (s : Agent) (w : World) : Step :=
  Step.andThen (nextAction s w)
    fun s1 => Step.andThen (executeAction s1 w s1.current_action)
    fun s2 => ⟨{ s2 with timeStartCurrentAction := w.timeAfterExecute }, [], .returned⟩

/-- The body of `run` once the map and the agent's place in it are known and
the agent is set up (lines 538-807). -/
def runBody (s : Agent) (w : World) : Step :=
  Step.andThen (checkCurrentAction s w)
    fun s1 => Step.andThen (doPlanning s1 w)
    fun s2 => dispatchNextAction s2 w

/-- The method `run()` (lines 488-873). -/
def run (s : Agent) (w : World) : Step :=
  match w.latestMapHandle with
  | .UNDEFINED => ⟨{ s with cycleCount := w.cycleCount }, [], .returned⟩
  | _ =>
    if !w.mapContainsAgent then ⟨{ s with cycleCount := w.cycleCount }, [], .returned⟩
    else if !s.bInitialized then runBody (init { s with cycleCount := w.cycleCount } w) w
    else runBody { s with cycleCount := w.cycleCount } w

/-! ## Several calls of run -/

/-- Whether the map is there and the agent is in it, so that `run` goes on. -/
def World.ready (w : World) : Prop :=
  w.latestMapHandle ≠ .UNDEFINED ∧ w.mapContainsAgent = true

/-- The calls made by successive calls of `run`, one for each world, each
starting from the agent that the call before has left. -/
def runTicks (s : Agent) : List World → List Event
  | [] => []
  | w :: ws => (run s w).events ++ runTicks (run s w).agent ws

/-- The actions on which `executeAction` was entered, in the order of the calls. -/
def dispatchedActions : List Event → HandleSeq
  | [] => []
  | Event.executeAction _ h :: rest => h :: dispatchedActions rest
  | _ :: rest => dispatchedActions rest

/-- A world in which `run` gets past the map checks, no procedure is reported
failed, there is no utterance to say and `lexical_cast` does not throw: no
action fails or produces an utterance. -/
def World.steady (w : World) : Prop :=
  w.ready ∧ (∀ id, w.isFailed id = false)
    ∧ getOutgoing w.utterance_sentences = []
    ∧ ∀ text, ∃ num_c, w.lexical_cast text = some num_c

/-- Whether this call of `run` finds an action running that the interpreter
does not report finished. -/
def stillRunning (s : Agent) (w : World) : Bool :=
  s.bInitialized && s.currentSchemaId != 0 && !w.isFinished s.currentSchemaId

/-- The number of calls of `run`, one for each world, that do not find an
action still running. -/
def proceedingCalls (s : Agent) : List World → Nat
  | [] => 0
  | w :: ws => (if stillRunning s w = true then 0 else 1) + proceedingCalls (run s w).agent ws

/-- A step of a plan that is a plan tree and gives at least one action,
however its alternatives are resolved. -/
def IsActionStep (t : Handle) : Prop :=
  isPlanTree t = true ∧ ∀ g, (flatten t g).1 ≠ []

/-- The actions of the given steps, step after step, each step flattened with
the generator of the same rank. -/
def flattenSteps : HandleSeq → List RandGen → HandleSeq
  | t :: rest, g :: gs => (flatten t g).1 ++ flattenSteps rest gs
  | [], _ => []
  | _ :: _, [] => []

/-! ## The utterance markers, in words -/

/-- The text `s` begins with `marker`, optional white space, a colon and
optional white space, and `rest` is the text that follows (it does not begin
with white space). -/
def MarkerAt (marker s rest : List Char) : Prop :=
  ∃ ws1 ws2, s = marker ++ ws1 ++ ':' :: (ws2 ++ rest)
    ∧ (∀ c ∈ ws1, isspace c = true) ∧ (∀ c ∈ ws2, isspace c = true)
    ∧ ∀ c, rest.head? = some c → isspace c = false

/-- The first place in `text` where `marker`, optional white space, a colon and
optional white space stand, is followed by `rest`. -/
def FirstMarker (marker text rest : List Char) : Prop :=
  ∃ before found, text = before ++ found ∧ MarkerAt marker found rest
    ∧ ∀ before1 found1 rest1, text = before1 ++ found1 → before1.length < before.length →
        ¬ MarkerAt marker found1 rest1

/-- There is no place in `text` where `marker`, optional white space and a
colon stand. -/
def NoMarker (marker text : List Char) : Prop :=
  ∀ before found rest, text = before ++ found → ¬ MarkerAt marker found rest

/-- The say descriptor with the given content and listener. -/
def sayDescriptor (content listener : String) : Handle :=
  Handle.link .EXECUTION_LINK
    [Handle.node .GROUNDED_PREDICATE_NODE "say",
     Handle.link .LIST_LINK
       [Handle.node .SENTENCE_NODE content, Handle.node .OBJECT_NODE listener]]

/-- The text of one argument in a scheme expression, in words: a space and the
text as it is for a number, a space and the text in double quotes otherwise. -/
def argumentText (hArgument : Handle) : String :=
  if getType hArgument = .NUMBER_NODE then " " ++ getName hArgument
  else " " ++ "\"" ++ getName hArgument ++ "\""

/-- The scheme expression for the function `n` and the arguments, in words. -/
def callExpression (n : String) (arguments : HandleSeq) : String :=
  "( " ++ n ++ String.join (arguments.map argumentText) ++ " )"

/-! ## Sample values -/

/-- A leaf of a plan: the action `A`. -/
def leafA : Handle := .link .EXECUTION_LINK [.node .GROUNDED_PREDICATE_NODE "A"]

/-- A leaf of a plan: the action `B`. -/
def leafB : Handle := .link .EXECUTION_LINK [.node .GROUNDED_PREDICATE_NODE "B"]

/-- A leaf of a plan: the action `C`. -/
def leafC : Handle := .link .EXECUTION_LINK [.node .GROUNDED_PREDICATE_NODE "C"]

/-- The plan `Sequence[A, Alternative[B, C]]`. -/
def endToEndPlan : Handle := .link .SEQUENTIAL_AND_LINK [leafA, .link .OR_LINK [leafB, leafC]]

/-- A generator whose every draw is `draw`. -/
def constantRand (draw : Nat) : RandGen := ⟨fun _ => draw, 0⟩

/-- An agent after `init`, with no plan and no action running. -/
def idleAgent : Agent where
  cycleCount := 0
  bInitialized := true
  currentSchemaId := 0
  procedureExecutionTimeout := 60
  timeStartCurrentAction := 0
  psi_demand_goal_list := []
  plan_selected_demand_goal := .UNDEFINED
  plan_rule_list := []
  plan_context_list := []
  plan_action_list := []
  temp_action_list := []
  current_actions := []
  current_action := .UNDEFINED
  count := 0

/-- An agent with the procedure 7 running since time 40 and a plan left. -/
def busyAgent : Agent :=
  { idleAgent with
    currentSchemaId := 7
    timeStartCurrentAction := 40
    current_actions := [leafB]
    temp_action_list := [leafC] }

/-- A world with a map, the agent in it, the time 100, no procedure finished
or failed, and a planner that finds the plan `endToEndPlan` with the given
mean of `plan_success`. -/
def sampleWorld (plan_success : ℚ) : World where
  cycleCount := 1
  latestMapHandle := .node .CONCEPT_NODE "map"
  mapContainsAgent := true
  PSI_DEMANDS := ["Energy"]
  PROCEDURE_EXECUTION_TIMEOUT := 60
  timeAtCheck := 100
  timeAfterExecute := 100
  isFailed := fun _ => false
  isFinished := fun _ => false
  getResult := fun _ => .action_result .action_success
  runProcedure := fun _ _ => 8
  eval_error := fun _ => false
  lexical_cast := fun _ => none
  plan_success := plan_success
  plan_selected_demand_goal :=
    .link .EVALUATION_LINK [.node .PREDICATE_NODE "EnergyDemandGoal"]
  plan_rule_list := .link .LIST_LINK []
  plan_context_list := .link .LIST_LINK []
  plan_action_list := .link .LIST_LINK [endToEndPlan]
  utterance_sentences := .link .LIST_LINK []
  rand := constantRand 1

/-- The world `sampleWorld` in which every procedure is reported failed. -/
def failingWorld : World :=
  { sampleWorld 0 with isFailed := fun _ => true }

/-- An agent whose plan is used up and whose count of skipped cycles is 4. -/
def exhaustedAgent : Agent :=
  { idleAgent with count := 4 }

/-- The world `sampleWorld` in which every procedure is reported finished. -/
def finishedWorld : World :=
  { sampleWorld 0 with isFinished := fun _ => true }

/-- The world `sampleWorld` at the given time. -/
def worldAt (time : Int) : World :=
  { sampleWorld 0 with timeAtCheck := time }

/-- A step of a plan of a kind that `getActions` does not know: a list link
around the leaf `A`. -/
def unknownStep : Handle := .link .LIST_LINK [leafA]

/-- An agent with no action running, `current_actions` empty and the one step
`unknownStep` left in `temp_action_list`. -/
def unknownStepAgent : Agent :=
  { idleAgent with temp_action_list := [unknownStep] }

/-- The sentence node with the text `TO: bob, CONTENT: hello`. -/
def helloSentence : Handle := .node .SENTENCE_NODE "TO: bob, CONTENT: hello"

/-- The sentence node with the text `TO: bob, CONTENT: `, of empty content. -/
def emptySentence : Handle := .node .SENTENCE_NODE "TO: bob, CONTENT: "

/-- An agent with no action running and a plan left: `A` then `B` in
`current_actions` (the back is `A`), and the step `C` in `temp_action_list`. -/
def planLeftAgent : Agent :=
  { idleAgent with current_actions := [leafB, leafA], temp_action_list := [leafC] }

/-- The world `finishedWorld` in which the sentence `helloSentence` is found
after the action. -/
def utteranceWorld : World :=
  { finishedWorld with utterance_sentences := .link .LIST_LINK [helloSentence] }

/-- The world `sampleWorld 1` in which the planner has left the two steps `A`
and `B` in the action list and every procedure is reported finished. -/
def twoStepWorld : World :=
  { sampleWorld 1 with
    plan_action_list := .link .LIST_LINK [leafA, leafB]
    isFinished := fun _ => true
    lexical_cast := fun _ => some 0 }

/-- The world `twoStepWorld` in which no procedure is reported finished. -/
def waitingWorld : World :=
  { twoStepWorld with isFinished := fun _ => false }

/-- A scheme function with a number and a text as arguments. -/
def schemeCall : Handle :=
  .link .EXECUTION_LINK
    [.node .GROUNDED_PREDICATE_NODE "scm: go_to ",
     .link .LIST_LINK [.node .NUMBER_NODE "3", .node .CONCEPT_NODE "home"]]

/-- The world `finishedWorld` in which the finished procedure has returned
the given result. -/
def resultWorld (result : Vertex) : World :=
  { finishedWorld with getResult := fun _ => result }

/-! ## Theorems -/

theorem popBack_append_singleton {α : Type} (l : List α) (x : α) :
    popBack (l ++ [x]) = some (x, l) := by
  simp [popBack]

theorem drainBack_reverse {α : Type} (l : List α) :
    drainBack l.reverse.length l.reverse = l := by
  induction l with
  | nil => simp [drainBack]
  | cons x xs ih =>
    simp only [List.reverse_cons, List.length_append, List.length_singleton, drainBack,
      popBack_append_singleton]
    rw [ih]

theorem drainBack_length {α : Type} (l : List α) :
    drainBack l.length l = l.reverse := by
  have h := drainBack_reverse l.reverse
  simpa using h

mutual
theorem getActions_flatten (root : Handle) (h : isPlanTree root = true) (actions : HandleSeq)
    (g : RandGen) :
    getActions root actions g = some ((flatten root g).1.reverse ++ actions, (flatten root g).2) := by
  match root with
  | .link t children =>
    unfold getActions flatten
    unfold isPlanTree at h
    by_cases h1 : t = .EXECUTION_LINK
    · simp [h1]
    · by_cases h2 : t = .AND_LINK ∨ t = .SEQUENTIAL_AND_LINK
      · simp only [h1, h2, if_true, if_false] at h ⊢
        exact getActionsFor_flatten children h actions g
      · by_cases h3 : t = .OR_LINK
        · subst h3
          have h4 : (!children.isEmpty && arePlanTrees children) = true := by simpa using h
          simp only [Bool.and_eq_true] at h4
          have hne : children ≠ [] := by
            intro hc
            simp [hc] at h4
          have hlt : (g.randint children.length).1 < children.length :=
            Nat.mod_lt _ (List.length_pos.mpr hne)
          simp only [reduceCtorEq, or_self, if_false, if_true]
          exact getActionsAt_flatten children _ h4.2 hlt actions _
        · simp [h1, h2, h3] at h
  | .node _ _ => simp [isPlanTree] at h
  | .UNDEFINED => simp [isPlanTree] at h
theorem getActionsFor_flatten (children : HandleSeq) (h : arePlanTrees children = true)
    (actions : HandleSeq) (g : RandGen) :
    getActionsFor children actions g
      = some ((flattenSequence children g).1.reverse ++ actions, (flattenSequence children g).2) := by
  match children with
  | [] => simp [getActionsFor, flattenSequence]
  | c :: rest =>
    unfold arePlanTrees at h
    simp only [Bool.and_eq_true] at h
    unfold getActionsFor flattenSequence
    rw [getActions_flatten c h.1 actions g]
    simp only
    rw [getActionsFor_flatten rest h.2]
    simp
theorem getActionsAt_flatten (children : HandleSeq) (i : Nat) (h : arePlanTrees children = true)
    (hi : i < children.length) (actions : HandleSeq) (g : RandGen) :
    getActionsAt children i actions g
      = some ((flattenChosen children i g).1.reverse ++ actions, (flattenChosen children i g).2) := by
  match children, i with
  | [], _ => simp at hi
  | c :: _, 0 =>
    unfold arePlanTrees at h
    simp only [Bool.and_eq_true] at h
    unfold getActionsAt flattenChosen
    exact getActions_flatten c h.1 actions g
  | _ :: rest, i + 1 =>
    unfold arePlanTrees at h
    simp only [Bool.and_eq_true] at h
    unfold getActionsAt flattenChosen
    exact getActionsAt_flatten rest i h.2 (by simpa using hi) actions g
end

theorem getActionsAt_get? (children : HandleSeq) (i : Nat) (actions : HandleSeq) (g : RandGen) :
    getActionsAt children i actions g
      = match children.get? i with
        | some c => getActions c actions g
        | none => none := by
  induction children generalizing i with
  | nil => simp [getActionsAt]
  | cons c rest ih =>
    cases i with
    | zero => simp [getActionsAt]
    | succ i => simp [getActionsAt, ih]

/-- C1: for a plan tree built only from leaves, sequences and alternatives, and
for every resolution of the alternative choices (every generator `g`),
`getActions` on the root with an empty list followed by popping from the back
until the list is empty yields the leaves in depth-first, left-to-right order
(the list `flatten root g`); a sequence of three leaves is dispatched exactly
in its order, each leaf once. -/
theorem getActions_drain_depth_first (root : Handle) (g : RandGen)
    (h : isPlanTree root = true) :
    (∃ actions g1, getActions root [] g = some (actions, g1) ∧ g1 = (flatten root g).2 ∧
        drainBack actions.length actions = (flatten root g).1) ∧
    (∀ (t : AtomType) (a b c : HandleSeq), t = .AND_LINK ∨ t = .SEQUENTIAL_AND_LINK →
      ∃ actions, getActions
          (.link t [.link .EXECUTION_LINK a, .link .EXECUTION_LINK b, .link .EXECUTION_LINK c])
          [] g = some (actions, g) ∧
        drainBack actions.length actions
          = [.link .EXECUTION_LINK a, .link .EXECUTION_LINK b, .link .EXECUTION_LINK c]) := by
  constructor
  · refine ⟨(flatten root g).1.reverse, (flatten root g).2, ?_, rfl, ?_⟩
    · simpa using getActions_flatten root h [] g
    · simpa using drainBack_length (flatten root g).1.reverse
  · intro t a b c ht
    refine ⟨[.link .EXECUTION_LINK c, .link .EXECUTION_LINK b, .link .EXECUTION_LINK a], ?_, ?_⟩
    · rcases ht with ht | ht <;> subst ht <;> simp [getActions, getActionsFor]
    · simp [drainBack, popBack]

theorem getActions_drain_depth_first_witness :
    isPlanTree endToEndPlan = true ∧
      (flatten endToEndPlan (constantRand 1)).1 = [leafA, leafC] ∧
      ∃ actions g1, getActions endToEndPlan [] (constantRand 1) = some (actions, g1) ∧
        g1 = (flatten endToEndPlan (constantRand 1)).2 ∧
        drainBack actions.length actions = (flatten endToEndPlan (constantRand 1)).1 :=
  ⟨rfl, rfl, (getActions_drain_depth_first endToEndPlan (constantRand 1) rfl).1⟩

/-- C2: for an alternative (`OR_LINK`) with at least one child and every output
list, `getActions` on the node gives exactly what `getActions` gives on the one
child that `rand_element` selects, a direct child of the node. -/
theorem getActions_alternative_one_child (children actions : HandleSeq) (g : RandGen)
    (h : children ≠ []) :
    ∃ c g1, rand_element children g = some (c, g1) ∧ c ∈ children ∧
      getActions (.link .OR_LINK children) actions g = getActions c actions g1 := by
  have hlt : (g.randint children.length).1 < children.length :=
    Nat.mod_lt _ (List.length_pos.mpr h)
  obtain ⟨c, hc⟩ : ∃ c, children.get? (g.randint children.length).1 = some c :=
    ⟨_, List.get?_eq_get hlt⟩
  refine ⟨c, (g.randint children.length).2, ?_, List.get?_mem hc, ?_⟩
  · unfold rand_element
    rw [hc]
  · simp only [getActions, reduceCtorEq, or_self, if_false, if_true]
    rw [getActionsAt_get?, hc]

theorem getActions_alternative_one_child_witness :
    [leafB, leafC] ≠ [] ∧
      ∃ c g1, rand_element [leafB, leafC] (constantRand 1) = some (c, g1) ∧ c ∈ [leafB, leafC] ∧
        getActions (.link .OR_LINK [leafB, leafC]) [leafA] (constantRand 1)
          = getActions c [leafA] g1 :=
  ⟨by simp, getActions_alternative_one_child [leafB, leafC] [leafA] (constantRand 1) (by simp)⟩

/-- C3: on a node whose type is none of `EXECUTION_LINK`, `AND_LINK`,
`SEQUENTIAL_AND_LINK`, `OR_LINK`, `getActions` leaves the output list as it is,
whatever the children; a leaf directly under such a node contributes no action. -/
theorem getActions_unknown_kind (hStep : Handle) (actions : HandleSeq) (g : RandGen)
    (h1 : getType hStep ≠ .EXECUTION_LINK) (h2 : getType hStep ≠ .AND_LINK)
    (h3 : getType hStep ≠ .SEQUENTIAL_AND_LINK) (h4 : getType hStep ≠ .OR_LINK) :
    getActions hStep actions g = some (actions, g) ∧
    (∀ leaf ∈ getOutgoing hStep, getType leaf = .EXECUTION_LINK →
      getActions hStep [] g = some ([], g)) := by
  have key : ∀ acts, getActions hStep acts g = some (acts, g) := by
    intro acts
    cases hStep with
    | UNDEFINED => simp [getActions]
    | node t name =>
      simp only [getType] at h1 h2 h3 h4
      simp [getActions, h1, h2, h3, h4]
    | link t outs =>
      simp only [getType] at h1 h2 h3 h4
      simp [getActions, h1, h2, h3, h4]
  exact ⟨key actions, fun _ _ _ => key []⟩

theorem getActions_unknown_kind_witness :
    getActions (.link .LIST_LINK [leafA]) [leafB] (constantRand 0)
        = some ([leafB], constantRand 0) ∧
      (∀ leaf ∈ getOutgoing (.link .LIST_LINK [leafA]), getType leaf = .EXECUTION_LINK →
        getActions (.link .LIST_LINK [leafA]) [] (constantRand 0) = some ([], constantRand 0)) :=
  getActions_unknown_kind (.link .LIST_LINK [leafA]) [leafB] (constantRand 0)
    (by simp [getType]) (by simp [getType]) (by simp [getType]) (by simp [getType])

theorem andThen_next (r : Step) (k : Agent → Step) (h : r.flow = .next) :
    r.andThen k = ⟨(k r.agent).agent, r.events ++ (k r.agent).events, (k r.agent).flow⟩ := by
  unfold Step.andThen
  rw [h]

theorem andThen_stop (r : Step) (k : Agent → Step) (h : r.flow ≠ .next) :
    r.andThen k = r := by
  unfold Step.andThen
  cases hf : r.flow <;> simp_all

theorem checkCurrentAction_cases (s : Agent) (w : World) :
    (s.currentSchemaId = 0 ∧ checkCurrentAction s w = ⟨s, [], .next⟩)
      ∨ checkCurrentAction s w = ⟨{ s with currentSchemaId := 0 }, [], .next⟩
      ∨ checkCurrentAction s w
          = ⟨{ s with current_actions := [], temp_action_list := [], currentSchemaId := 0 },
              [], .next⟩
      ∨ checkCurrentAction s w
          = ⟨{ s with current_actions := [], temp_action_list := [], currentSchemaId := 0 },
              [Event.setPendingActionPlansFailed, Event.stopProcedure s.currentSchemaId], .next⟩
      ∨ checkCurrentAction s w = ⟨s, [], .returned⟩ := by
  unfold checkCurrentAction
  by_cases h0 : s.currentSchemaId = 0
  · simp [h0]
  · cases hF : w.isFailed s.currentSchemaId
    · cases hC : w.isFinished s.currentSchemaId
      · by_cases h3 : w.timeAtCheck - s.timeStartCurrentAction > s.procedureExecutionTimeout
        · simp [h0, hF, hC, h3]
        · simp [h0, hF, hC, h3]
      · right; left
        simp only [ne_eq, h0, not_false_eq_true, if_true, hF, hC, Bool.not_false, Bool.and_self]
        cases resultStatus (w.getResult s.currentSchemaId) <;> rfl
    · simp [h0, hF]

theorem checkCurrentAction_next (s : Agent) (w : World)
    (h : (checkCurrentAction s w).flow = .next) :
    (checkCurrentAction s w).agent.currentSchemaId = 0 := by
  rcases checkCurrentAction_cases s w with ⟨h0, hc⟩ | hc | hc | hc | hc <;> rw [hc] at h ⊢
  · exact h0
  · simp at h

theorem doPlanning_cases (s : Agent) (w : World) :
    doPlanning s w = ⟨s, [], .next⟩
      ∨ doPlanning s w = ⟨{ s with count := s.count + 1 }, [], .returned⟩
      ∨ doPlanning s w = ⟨{ s with count := 0 }, [Event.schemeEval "( do_planning )"], .returned⟩
      ∨ doPlanning s w = ⟨(getPlan { s with count := 0 } w).2,
          [Event.schemeEval "( do_planning )", Event.getPlan false], .returned⟩
      ∨ doPlanning s w = ⟨(getPlan { s with count := 0 } w).2,
          [Event.schemeEval "( do_planning )", Event.getPlan true]
            ++ stimulateAtoms (getPlan { s with count := 0 } w).2
            ++ [Event.setCurrentDemandGoal
                  (getPlan { s with count := 0 } w).2.plan_selected_demand_goal],
          .next⟩ := by
  unfold doPlanning
  split_ifs <;> simp

theorem getPlan_currentSchemaId (s : Agent) (w : World) :
    (getPlan s w).2.currentSchemaId = s.currentSchemaId := by
  unfold getPlan
  split_ifs <;> rfl

theorem getPlan_count (s : Agent) (w : World) :
    (getPlan s w).2.count = s.count := by
  unfold getPlan
  split_ifs <;> rfl

theorem doPlanning_currentSchemaId (s : Agent) (w : World) :
    (doPlanning s w).agent.currentSchemaId = s.currentSchemaId := by
  rcases doPlanning_cases s w with h | h | h | h | h <;> rw [h] <;>
    simp [getPlan_currentSchemaId]

theorem nextAction_events (s : Agent) (w : World) : (nextAction s w).events = [] := by
  unfold nextAction
  split_ifs
  · split <;> rfl
  · split
    · rfl
    · split
      · rfl
      · split <;> rfl
  · rfl

theorem nextAction_currentSchemaId (s : Agent) (w : World) :
    (nextAction s w).agent.currentSchemaId = s.currentSchemaId := by
  unfold nextAction
  split_ifs
  · split <;> rfl
  · split
    · rfl
    · split
      · rfl
      · split <;> rfl
  · rfl

theorem nextAction_count (s : Agent) (w : World) :
    (nextAction s w).agent.count = s.count := by
  unfold nextAction
  split_ifs
  · split <;> rfl
  · split
    · rfl
    · split
      · rfl
      · split <;> rfl
  · rfl

theorem runAction_cases (s : Agent) (w : World) (h : Handle) :
    (∃ x, runAction s w h = ⟨s, [Event.schemeEval x], .next⟩)
      ∨ runAction s w h
          = ⟨s, [Event.resolveLatestSentenceReference, Event.answerQuestion], .next⟩
      ∨ runAction s w h = ⟨s, [], .threw⟩
      ∨ ∃ n a, runAction s w h
          = ⟨{ s with currentSchemaId := w.runProcedure n a }, [Event.runProcedure n a], .next⟩ := by
  unfold runAction
  simp only
  generalize (if getArity h = 2 then getOutgoing (getOutgoingAt h 1) else []) = hArguments
  split_ifs
  · exact Or.inl ⟨_, rfl⟩
  · exact Or.inr (Or.inl rfl)
  · exact Or.inl ⟨_, rfl⟩
  · split
    · exact Or.inr (Or.inr (Or.inl rfl))
    · exact Or.inr (Or.inr (Or.inr ⟨_, _, rfl⟩))

/-- The events of `executeAction` after its entry mark. -/
theorem executeAction_events (s : Agent) (w : World) (h : Handle) :
    ∃ rest, (executeAction s w h).events = Event.executeAction s.currentSchemaId h :: rest ∧
      ∀ e ∈ rest, e.isExecuteAction = false ∧ e.isStopProcedure = false
        ∧ e.isSetPendingActionPlansFailed = false ∧ e.isStimulateAtom = false
        ∧ e.isSetCurrentDemandGoal = false ∧ ∀ b, e ≠ Event.getPlan b := by
  unfold executeAction
  rw [andThen_next _ _ rfl]
  simp only [List.singleton_append, List.cons.injEq, true_and, exists_eq_left']
  unfold generateSayActions
  rcases runAction_cases s w h with ⟨x, hc⟩ | hc | hc | ⟨n, a, hc⟩ <;> rw [hc] <;>
    simp [Step.andThen, Event.isExecuteAction, Event.isStopProcedure,
      Event.isSetPendingActionPlansFailed, Event.isStimulateAtom, Event.isSetCurrentDemandGoal]

theorem executeAction_count (s : Agent) (w : World) (h : Handle) :
    (executeAction s w h).agent.count = s.count := by
  unfold executeAction
  rw [andThen_next _ _ rfl]
  unfold generateSayActions
  rcases runAction_cases s w h with ⟨x, hc⟩ | hc | hc | ⟨n, a, hc⟩ <;> rw [hc] <;>
    simp [Step.andThen]

theorem dispatchNextAction_count (s : Agent) (w : World) :
    (dispatchNextAction s w).agent.count = s.count := by
  unfold dispatchNextAction
  by_cases h1 : (nextAction s w).flow = .next
  · rw [andThen_next _ _ h1]
    by_cases h2 : (executeAction (nextAction s w).agent w
        (nextAction s w).agent.current_action).flow = .next
    · rw [andThen_next _ _ h2]
      simp [executeAction_count, nextAction_count]
    · rw [andThen_stop _ _ h2]
      simp [executeAction_count, nextAction_count]
  · rw [andThen_stop _ _ h1]
    exact nextAction_count s w

/-- C4: when the running action is reported failed, `current_actions` and
`temp_action_list` are both empty right after the check of the running action,
whatever they held, and `currentSchemaId` is 0. -/
theorem checkCurrentAction_failed (s : Agent) (w : World) (h0 : s.currentSchemaId ≠ 0)
    (hF : w.isFailed s.currentSchemaId = true) :
    (checkCurrentAction s w).agent.current_actions = []
      ∧ (checkCurrentAction s w).agent.temp_action_list = []
      ∧ (checkCurrentAction s w).agent.currentSchemaId = 0
      ∧ (checkCurrentAction s w).flow = .next := by
  unfold checkCurrentAction
  simp [h0, hF]

theorem checkCurrentAction_failed_witness :
    busyAgent.currentSchemaId ≠ 0 ∧ failingWorld.isFailed busyAgent.currentSchemaId = true
      ∧ (checkCurrentAction busyAgent failingWorld).agent.current_actions = []
      ∧ (checkCurrentAction busyAgent failingWorld).agent.temp_action_list = []
      ∧ (checkCurrentAction busyAgent failingWorld).agent.currentSchemaId = 0
      ∧ (checkCurrentAction busyAgent failingWorld).flow = .next :=
  ⟨by decide, rfl, checkCurrentAction_failed busyAgent failingWorld (by decide) rfl⟩

theorem stimulateAtoms_mem (s : Agent) (e : Event) (h : e ∈ stimulateAtoms s) :
    ∃ a, e = Event.stimulateAtom a 10 := by
  unfold stimulateAtoms at h
  simp only [List.mem_append, List.mem_map] at h
  rcases h with (⟨a, _, rfl⟩ | ⟨a, _, rfl⟩) | ⟨a, _, rfl⟩ <;> exact ⟨a, rfl⟩

theorem doPlanning_events_kind (s : Agent) (w : World) :
    ∀ e ∈ (doPlanning s w).events,
      e = Event.schemeEval "( do_planning )" ∨ (∃ b, e = Event.getPlan b)
        ∨ (∃ a, e = Event.stimulateAtom a 10) ∨ ∃ a, e = Event.setCurrentDemandGoal a := by
  intro e he
  rcases doPlanning_cases s w with h | h | h | h | h <;> rw [h] at he
  · simp at he
  · simp at he
  · simp only [List.mem_singleton] at he
    exact Or.inl he
  · simp only [List.mem_cons, List.mem_singleton, List.not_mem_nil, or_false] at he
    rcases he with he | he
    · exact Or.inl he
    · exact Or.inr (Or.inl ⟨_, he⟩)
  · simp only [List.mem_append, List.mem_cons, List.mem_singleton, List.not_mem_nil,
      or_false] at he
    rcases he with ((he | he) | he) | he
    · exact Or.inl he
    · exact Or.inr (Or.inl ⟨_, he⟩)
    · exact Or.inr (Or.inr (Or.inl (stimulateAtoms_mem _ e he)))
    · exact Or.inr (Or.inr (Or.inr ⟨_, he⟩))

theorem checkCurrentAction_events_kind (s : Agent) (w : World) :
    ∀ e ∈ (checkCurrentAction s w).events,
      e = Event.setPendingActionPlansFailed ∨ e = Event.stopProcedure s.currentSchemaId := by
  intro e he
  rcases checkCurrentAction_cases s w with ⟨_, h⟩ | h | h | h | h <;> rw [h] at he <;>
    simp at he
  exact he

/-- The step of `dispatchNextAction` is either without any call, or the calls
of one `executeAction`. -/
theorem dispatchNextAction_shape (s : Agent) (w : World) :
    (dispatchNextAction s w).events = []
      ∨ ∃ s1 h, s1.currentSchemaId = s.currentSchemaId
          ∧ (dispatchNextAction s w).events = (executeAction s1 w h).events
          ∧ (dispatchNextAction s w).agent.currentSchemaId
              = (executeAction s1 w h).agent.currentSchemaId := by
  unfold dispatchNextAction
  by_cases h1 : (nextAction s w).flow = .next
  · right
    refine ⟨(nextAction s w).agent, (nextAction s w).agent.current_action,
      nextAction_currentSchemaId s w, ?_⟩
    rw [andThen_next _ _ h1]
    simp only [nextAction_events, List.nil_append]
    by_cases h2 : (executeAction (nextAction s w).agent w
        (nextAction s w).agent.current_action).flow = .next
    · rw [andThen_next _ _ h2]
      simp
    · rw [andThen_stop _ _ h2]
      simp
  · left
    rw [andThen_stop _ _ h1]
    exact nextAction_events s w

/-- The calls of `runBody`: first those of the check and of the planning, none
of them a dispatch, then those of at most one `executeAction`, entered with
`currentSchemaId = 0`. -/
theorem runBody_shape (s : Agent) (w : World) :
    ∃ before after, (runBody s w).events = before ++ after
      ∧ (∀ e ∈ before, e.isExecuteAction = false ∧ e.isRunProcedure = false)
      ∧ (after = [] ∨ ∃ s1 h, s1.currentSchemaId = 0
          ∧ after = (executeAction s1 w h).events
          ∧ (runBody s w).agent.currentSchemaId = (executeAction s1 w h).agent.currentSchemaId) := by
  unfold runBody
  by_cases h1 : (checkCurrentAction s w).flow = .next
  · rw [andThen_next _ _ h1]
    have hid := checkCurrentAction_next s w h1
    have hk1 : ∀ e ∈ (checkCurrentAction s w).events,
        e.isExecuteAction = false ∧ e.isRunProcedure = false := by
      intro e he
      rcases checkCurrentAction_events_kind s w e he with rfl | rfl <;>
        simp [Event.isExecuteAction, Event.isRunProcedure]
    have hk2 : ∀ e ∈ (doPlanning (checkCurrentAction s w).agent w).events,
        e.isExecuteAction = false ∧ e.isRunProcedure = false := by
      intro e he
      rcases doPlanning_events_kind _ w e he with rfl | ⟨_, rfl⟩ | ⟨_, rfl⟩ | ⟨_, rfl⟩ <;>
        simp [Event.isExecuteAction, Event.isRunProcedure]
    by_cases h2 : (doPlanning (checkCurrentAction s w).agent w).flow = .next
    · rw [andThen_next _ _ h2]
      simp only
      refine ⟨(checkCurrentAction s w).events ++ (doPlanning (checkCurrentAction s w).agent w).events,
        (dispatchNextAction (doPlanning (checkCurrentAction s w).agent w).agent w).events,
        by simp, ?_, ?_⟩
      · intro e he
        rcases List.mem_append.mp he with he | he
        · exact hk1 e he
        · exact hk2 e he
      · rcases dispatchNextAction_shape (doPlanning (checkCurrentAction s w).agent w).agent w
          with h3 | ⟨s1, h, h3, h4, h5⟩
        · exact Or.inl h3
        · refine Or.inr ⟨s1, h, ?_, h4, h5⟩
          rw [h3, doPlanning_currentSchemaId, hid]
    · rw [andThen_stop _ _ h2]
      refine ⟨(checkCurrentAction s w).events ++ (doPlanning (checkCurrentAction s w).agent w).events,
        [], by simp, ?_, Or.inl rfl⟩
      intro e he
      rcases List.mem_append.mp he with he | he
      · exact hk1 e he
      · exact hk2 e he
  · rw [andThen_stop _ _ h1]
    refine ⟨(checkCurrentAction s w).events, [], by simp, ?_, Or.inl rfl⟩
    intro e he
    rcases checkCurrentAction_events_kind s w e he with rfl | rfl <;>
      simp [Event.isExecuteAction, Event.isRunProcedure]

/-- The calls of `run` are those of `runBody` on some agent, or there is none. -/
theorem run_cases (s : Agent) (w : World) :
    (run s w = ⟨{ s with cycleCount := w.cycleCount }, [], .returned⟩
        ∧ (w.latestMapHandle = .UNDEFINED ∨ w.mapContainsAgent = false))
      ∨ (run s w = runBody (init { s with cycleCount := w.cycleCount } w) w
          ∧ s.bInitialized = false)
      ∨ (run s w = runBody { s with cycleCount := w.cycleCount } w ∧ s.bInitialized = true) := by
  unfold run
  cases hb : s.bInitialized <;> cases hm : w.mapContainsAgent <;>
    cases hl : w.latestMapHandle <;> simp

theorem andThen_mem (r : Step) (k : Agent → Step) (e : Event) (h : e ∈ (r.andThen k).events) :
    e ∈ r.events ∨ (r.flow = .next ∧ e ∈ (k r.agent).events) := by
  by_cases h1 : r.flow = .next
  · rw [andThen_next _ _ h1] at h
    rcases List.mem_append.mp h with h | h
    · exact Or.inl h
    · exact Or.inr ⟨h1, h⟩
  · rw [andThen_stop _ _ h1] at h
    exact Or.inl h

theorem dispatchNextAction_events_kind (s : Agent) (w : World) :
    ∀ e ∈ (dispatchNextAction s w).events,
      e.isStopProcedure = false ∧ e.isSetPendingActionPlansFailed = false
        ∧ e.isStimulateAtom = false ∧ e.isSetCurrentDemandGoal = false
        ∧ ∀ b, e ≠ Event.getPlan b := by
  intro e he
  rcases dispatchNextAction_shape s w with h | ⟨s1, h, _, h2, _⟩
  · rw [h] at he
    simp at he
  · rw [h2] at he
    obtain ⟨rest, hr, hrest⟩ := executeAction_events s1 w h
    rw [hr] at he
    rcases List.mem_cons.mp he with rfl | he
    · simp [Event.isStopProcedure, Event.isSetPendingActionPlansFailed, Event.isStimulateAtom,
        Event.isSetCurrentDemandGoal]
    · obtain ⟨_, h3, h4, h5, h6, h7⟩ := hrest e he
      exact ⟨h3, h4, h5, h6, h7⟩

theorem planDispatch_no_stop (s : Agent) (w : World) :
    ∀ e ∈ (Step.andThen (doPlanning s w) fun s2 => dispatchNextAction s2 w).events,
      e.isStopProcedure = false ∧ e.isSetPendingActionPlansFailed = false := by
  intro e he
  rcases andThen_mem _ _ e he with he | ⟨_, he⟩
  · rcases doPlanning_events_kind s w e he with rfl | ⟨_, rfl⟩ | ⟨_, rfl⟩ | ⟨_, rfl⟩ <;>
      simp [Event.isStopProcedure, Event.isSetPendingActionPlansFailed]
  · obtain ⟨h1, h2, _⟩ := dispatchNextAction_events_kind _ w e he
    exact ⟨h1, h2⟩

/-- C5: in a call of `run` that gets past the map checks, with an action
running that the interpreter reports neither finished nor failed, and with
`time(NULL) - timeStartCurrentAction` above the time-out,
`setPendingActionPlansFailed` is called exactly once and `stopProcedure`
exactly once, on the running procedure; after the check of the running action
`current_actions` and `temp_action_list` are empty and `currentSchemaId` is 0. -/
theorem run_timeout (s : Agent) (w : World) (hw : w.ready)
    (hinit : s.bInitialized = true) (h0 : s.currentSchemaId ≠ 0)
    (hC : w.isFinished s.currentSchemaId = false) (hF : w.isFailed s.currentSchemaId = false)
    (ht : w.timeAtCheck - s.timeStartCurrentAction > s.procedureExecutionTimeout) :
    (run s w).events.countP Event.isSetPendingActionPlansFailed = 1
      ∧ (run s w).events.countP Event.isStopProcedure = 1
      ∧ Event.stopProcedure s.currentSchemaId ∈ (run s w).events
      ∧ (checkCurrentAction { s with cycleCount := w.cycleCount } w).agent.current_actions = []
      ∧ (checkCurrentAction { s with cycleCount := w.cycleCount } w).agent.temp_action_list = []
      ∧ (checkCurrentAction { s with cycleCount := w.cycleCount } w).agent.currentSchemaId = 0 := by
  have hrun : run s w = runBody { s with cycleCount := w.cycleCount } w := by
    rcases run_cases s w with ⟨_, h | h⟩ | ⟨_, h⟩ | ⟨h, _⟩
    · exact absurd h hw.1
    · rw [hw.2] at h
      exact absurd h (by decide)
    · rw [hinit] at h
      exact absurd h (by decide)
    · exact h
  have hcheck : checkCurrentAction { s with cycleCount := w.cycleCount } w
      = ⟨{ ({ s with cycleCount := w.cycleCount } : Agent) with
            current_actions := [], temp_action_list := [], currentSchemaId := 0 },
          [Event.setPendingActionPlansFailed, Event.stopProcedure s.currentSchemaId], .next⟩ := by
    unfold checkCurrentAction
    simp [h0, hC, hF, ht]
  have hzero : ∀ (p : Event → Bool) (l : List Event), (∀ e ∈ l, p e = false) →
      l.countP p = 0 := by
    intro p l hl
    rw [List.countP_eq_zero]
    intro e he
    simp [hl e he]
  rw [hrun]
  unfold runBody
  rw [andThen_next _ _ (by rw [hcheck]), hcheck]
  simp only [List.countP_append]
  rw [hzero Event.isSetPendingActionPlansFailed _ (fun e he => (planDispatch_no_stop _ w e he).2),
    hzero Event.isStopProcedure _ (fun e he => (planDispatch_no_stop _ w e he).1)]
  simp [List.countP_cons, Event.isSetPendingActionPlansFailed, Event.isStopProcedure]

theorem run_timeout_witness :
    (worldAt 101).ready
      ∧ (worldAt 101).timeAtCheck - busyAgent.timeStartCurrentAction
        = busyAgent.procedureExecutionTimeout + 1
      ∧ (run busyAgent (worldAt 101)).events.countP Event.isSetPendingActionPlansFailed = 1
      ∧ (run busyAgent (worldAt 101)).events.countP Event.isStopProcedure = 1
      ∧ Event.stopProcedure busyAgent.currentSchemaId ∈ (run busyAgent (worldAt 101)).events
      ∧ (checkCurrentAction { busyAgent with cycleCount := (worldAt 101).cycleCount }
          (worldAt 101)).agent.current_actions = []
      ∧ (checkCurrentAction { busyAgent with cycleCount := (worldAt 101).cycleCount }
          (worldAt 101)).agent.temp_action_list = []
      ∧ (checkCurrentAction { busyAgent with cycleCount := (worldAt 101).cycleCount }
          (worldAt 101)).agent.currentSchemaId = 0 :=
  ⟨⟨by simp [worldAt, sampleWorld], rfl⟩, by decide,
    run_timeout busyAgent (worldAt 101) ⟨by simp [worldAt, sampleWorld], rfl⟩ rfl
      (by decide) rfl rfl (by decide)⟩

/-- C6: in a call of `run` with an action running that the interpreter reports
neither finished nor failed, and with `time(NULL) - timeStartCurrentAction` at
most the time-out, `run` returns with `currentSchemaId`, `current_actions`,
`temp_action_list` and `timeStartCurrentAction` as they were, and makes no call
at all (no planner, no `stopProcedure`, no `executeAction`). -/
theorem run_still_running (s : Agent) (w : World)
    (hinit : s.bInitialized = true) (h0 : s.currentSchemaId ≠ 0)
    (hC : w.isFinished s.currentSchemaId = false) (hF : w.isFailed s.currentSchemaId = false)
    (ht : w.timeAtCheck - s.timeStartCurrentAction ≤ s.procedureExecutionTimeout) :
    (run s w).flow = .returned
      ∧ (run s w).agent.currentSchemaId = s.currentSchemaId
      ∧ (run s w).agent.current_actions = s.current_actions
      ∧ (run s w).agent.temp_action_list = s.temp_action_list
      ∧ (run s w).agent.timeStartCurrentAction = s.timeStartCurrentAction
      ∧ (run s w).events = [] := by
  have hcheck : checkCurrentAction { s with cycleCount := w.cycleCount } w
      = ⟨{ s with cycleCount := w.cycleCount }, [], .returned⟩ := by
    unfold checkCurrentAction
    simp [h0, hC, hF, not_lt.mpr ht]
  rcases run_cases s w with ⟨h, _⟩ | ⟨_, h⟩ | ⟨h, _⟩
  · rw [h]
    simp
  · rw [hinit] at h
    exact absurd h (by decide)
  · rw [h]
    unfold runBody
    have hflow : (checkCurrentAction { s with cycleCount := w.cycleCount } w).flow ≠ .next := by
      rw [hcheck]
      simp
    rw [andThen_stop _ _ hflow, hcheck]
    simp

theorem run_still_running_witness :
    (worldAt 100).timeAtCheck - busyAgent.timeStartCurrentAction
        = busyAgent.procedureExecutionTimeout
      ∧ (run busyAgent (worldAt 100)).flow = .returned
      ∧ (run busyAgent (worldAt 100)).agent.currentSchemaId = busyAgent.currentSchemaId
      ∧ (run busyAgent (worldAt 100)).agent.current_actions = busyAgent.current_actions
      ∧ (run busyAgent (worldAt 100)).agent.temp_action_list = busyAgent.temp_action_list
      ∧ (run busyAgent (worldAt 100)).agent.timeStartCurrentAction
          = busyAgent.timeStartCurrentAction
      ∧ (run busyAgent (worldAt 100)).events = [] :=
  ⟨by decide, run_still_running busyAgent (worldAt 100) rfl (by decide) rfl rfl (by decide)⟩

theorem executeAction_runProcedure (s : Agent) (w : World) (h : Handle) (n : String)
    (a : List Vertex) (hmem : Event.runProcedure n a ∈ (executeAction s w h).events) :
    (executeAction s w h).agent.currentSchemaId = w.runProcedure n a
      ∧ (executeAction s w h).events.countP Event.isRunProcedure = 1 := by
  unfold executeAction at hmem ⊢
  rw [andThen_next _ _ rfl] at hmem ⊢
  unfold generateSayActions at hmem ⊢
  rcases runAction_cases s w h with ⟨x, hc⟩ | hc | hc | ⟨n1, a1, hc⟩ <;> rw [hc] at hmem ⊢
  · simp [Step.andThen] at hmem
  · simp [Step.andThen] at hmem
  · simp [Step.andThen] at hmem
  · simp only [Step.andThen, List.singleton_append, List.mem_cons, List.mem_singleton,
      reduceCtorEq, Event.runProcedure.injEq, false_or, or_false, List.not_mem_nil] at hmem
    obtain ⟨rfl, rfl⟩ := hmem
    simp [Step.andThen, List.countP_cons, Event.isRunProcedure]

/-- C7: in every call of `run`, `executeAction` is entered at most once, and
only with `currentSchemaId = 0` (an action that was running at the start has
been reset before, or `run` has returned); when the call runs a combo
procedure, `currentSchemaId` is at the end the one handle that `runProcedure`
returned. -/
theorem run_dispatches_once (s : Agent) (w : World) :
    (run s w).events.countP Event.isExecuteAction ≤ 1
      ∧ (∀ id h, Event.executeAction id h ∈ (run s w).events → id = 0)
      ∧ (∀ n a, Event.runProcedure n a ∈ (run s w).events →
          (run s w).agent.currentSchemaId = w.runProcedure n a
            ∧ (run s w).events.countP Event.isRunProcedure = 1) := by
  have hzero : ∀ (p : Event → Bool) (l : List Event), (∀ e ∈ l, p e = false) →
      l.countP p = 0 := by
    intro p l hl
    rw [List.countP_eq_zero]
    intro e he
    simp [hl e he]
  have body : ∀ s0 : Agent,
      (runBody s0 w).events.countP Event.isExecuteAction ≤ 1
        ∧ (∀ id h, Event.executeAction id h ∈ (runBody s0 w).events → id = 0)
        ∧ (∀ n a, Event.runProcedure n a ∈ (runBody s0 w).events →
            (runBody s0 w).agent.currentSchemaId = w.runProcedure n a
              ∧ (runBody s0 w).events.countP Event.isRunProcedure = 1) := by
    intro s0
    obtain ⟨before, after, hev, hbefore, hafter⟩ := runBody_shape s0 w
    rw [hev]
    have hb1 : before.countP Event.isExecuteAction = 0 :=
      hzero _ _ fun e he => (hbefore e he).1
    have hb2 : before.countP Event.isRunProcedure = 0 :=
      hzero _ _ fun e he => (hbefore e he).2
    have hnot1 : ∀ id h, Event.executeAction id h ∉ before := by
      intro id h hmem
      simpa [Event.isExecuteAction] using (hbefore _ hmem).1
    have hnot2 : ∀ n a, Event.runProcedure n a ∉ before := by
      intro n a hmem
      simpa [Event.isRunProcedure] using (hbefore _ hmem).2
    rcases hafter with rfl | ⟨s1, h, hid, rfl, hfin⟩
    · refine ⟨by simp [hb1], ?_, ?_⟩
      · intro id h hmem
        simp only [List.append_nil] at hmem
        exact absurd hmem (hnot1 id h)
      · intro n a hmem
        simp only [List.append_nil] at hmem
        exact absurd hmem (hnot2 n a)
    · obtain ⟨rest, hr, hrest⟩ := executeAction_events s1 w h
      refine ⟨?_, ?_, ?_⟩
      · rw [List.countP_append, hb1, hr, List.countP_cons,
          hzero Event.isExecuteAction rest fun e he => (hrest e he).1]
        simp [Event.isExecuteAction]
      · intro id h1 hmem
        rcases List.mem_append.mp hmem with hmem | hmem
        · exact absurd hmem (hnot1 id h1)
        · rw [hr] at hmem
          rcases List.mem_cons.mp hmem with heq | hmem
          · cases heq
            exact hid
          · simpa [Event.isExecuteAction] using (hrest _ hmem).1
      · intro n a hmem
        rcases List.mem_append.mp hmem with hmem | hmem
        · exact absurd hmem (hnot2 n a)
        · obtain ⟨h1, h2⟩ := executeAction_runProcedure s1 w h n a hmem
          rw [hfin, List.countP_append, hb2, h2]
          exact ⟨h1, rfl⟩
  rcases run_cases s w with ⟨h, _⟩ | ⟨h, _⟩ | ⟨h, _⟩ <;> rw [h]
  · simp
  · exact body _
  · exact body _

theorem run_dispatches_once_witness :
    busyAgent.currentSchemaId = 7
      ∧ (run busyAgent finishedWorld).events
          = [Event.executeAction 0 leafB, Event.runProcedure "B" [],
              Event.schemeEval "( reset_utterance_node \"utterance_sentences\" )"]
      ∧ finishedWorld.runProcedure "B" [] = 8
      ∧ (run busyAgent finishedWorld).agent.currentSchemaId = finishedWorld.runProcedure "B" []
      ∧ (run busyAgent finishedWorld).events.countP Event.isRunProcedure = 1 :=
  ⟨rfl, rfl, rfl,
    (run_dispatches_once busyAgent finishedWorld).2.2 "B" []
      (by
        have h : (run busyAgent finishedWorld).events
            = [Event.executeAction 0 leafB, Event.runProcedure "B" [],
                Event.schemeEval "( reset_utterance_node \"utterance_sentences\" )"] := rfl
        rw [h]
        simp)⟩

theorem getPlan_false_frame (a : Agent) (w : World) (h : (getPlan a w).1 = false) :
    (getPlan a w).2 = a := by
  unfold getPlan at h ⊢
  split_ifs at h ⊢
  rfl

/-- C9: when `getPlan` returns false it leaves the agent as it was (selected
goal, rule list, context list, action list, `temp_action_list`,
`current_actions` and all else); and a call of `run` in which `getPlan`
returned false returns without a call of `setCurrentDemandGoal`, of
`stimulateAtom` or of `executeAction`. -/
theorem run_getPlan_false (s : Agent) (w : World)
    (h : Event.getPlan false ∈ (run s w).events) :
    (∀ a : Agent, (getPlan a w).1 = false → (getPlan a w).2 = a)
      ∧ (run s w).flow = .returned
      ∧ ∀ e ∈ (run s w).events,
          e.isSetCurrentDemandGoal = false ∧ e.isStimulateAtom = false
            ∧ e.isExecuteAction = false := by
  refine ⟨fun a ha => getPlan_false_frame a w ha, ?_⟩
  have body : ∀ s0 : Agent, Event.getPlan false ∈ (runBody s0 w).events →
      (runBody s0 w).flow = .returned
        ∧ ∀ e ∈ (runBody s0 w).events,
            e.isSetCurrentDemandGoal = false ∧ e.isStimulateAtom = false
              ∧ e.isExecuteAction = false := by
    intro s0 hmem
    unfold runBody at hmem ⊢
    have hk1 := checkCurrentAction_events_kind s0 w
    rcases andThen_mem _ _ _ hmem with hmem1 | ⟨hflow1, hmem1⟩
    · rcases hk1 _ hmem1 with h1 | h1 <;> cases h1
    · rcases andThen_mem _ _ _ hmem1 with hmem2 | ⟨_, hmem2⟩
      · rw [andThen_next _ _ hflow1]
        rcases doPlanning_cases (checkCurrentAction s0 w).agent w with hc | hc | hc | hc | hc
        · rw [hc] at hmem2
          simp at hmem2
        · rw [hc] at hmem2
          simp at hmem2
        · rw [hc] at hmem2
          simp at hmem2
        · have hflow2 : (doPlanning (checkCurrentAction s0 w).agent w).flow ≠ .next := by
            rw [hc]
            simp
          rw [andThen_stop _ _ hflow2, hc]
          refine ⟨rfl, ?_⟩
          intro e he
          rcases List.mem_append.mp he with he | he
          · rcases hk1 e he with rfl | rfl <;>
              simp [Event.isSetCurrentDemandGoal, Event.isStimulateAtom, Event.isExecuteAction]
          · simp only [List.mem_cons, List.mem_singleton, List.not_mem_nil, or_false] at he
            rcases he with rfl | rfl <;>
              simp [Event.isSetCurrentDemandGoal, Event.isStimulateAtom, Event.isExecuteAction]
        · rw [hc] at hmem2
          simp only [List.mem_append, List.mem_cons, List.mem_singleton, List.not_mem_nil,
            or_false, reduceCtorEq, Event.getPlan.injEq, Bool.false_eq_true, false_or] at hmem2
          obtain ⟨_, ha⟩ := stimulateAtoms_mem _ _ hmem2
          cases ha
      · exact absurd rfl ((dispatchNextAction_events_kind _ w _ hmem2).2.2.2.2 false)
  rcases run_cases s w with ⟨hr, _⟩ | ⟨hr, _⟩ | ⟨hr, _⟩ <;> rw [hr] at h ⊢
  · simp at h
  · exact body _ h
  · exact body _ h

theorem run_getPlan_false_witness :
    (sampleWorld (17 / 20)).plan_success = 17 / 20
      ∧ Event.getPlan false ∈ (run exhaustedAgent (sampleWorld (17 / 20))).events
      ∧ (∀ a : Agent, (getPlan a (sampleWorld (17 / 20))).1 = false →
          (getPlan a (sampleWorld (17 / 20))).2 = a)
      ∧ (run exhaustedAgent (sampleWorld (17 / 20))).flow = .returned
      ∧ ∀ e ∈ (run exhaustedAgent (sampleWorld (17 / 20))).events,
          e.isSetCurrentDemandGoal = false ∧ e.isStimulateAtom = false
            ∧ e.isExecuteAction = false := by
  have hev : (run exhaustedAgent (sampleWorld (17 / 20))).events
      = [Event.schemeEval "( do_planning )", Event.getPlan false] := by
    simp [run, runBody, Step.andThen, checkCurrentAction, doPlanning, getPlan, sampleWorld,
      exhaustedAgent, idleAgent]
    norm_num
  exact ⟨rfl, by rw [hev]; simp,
    run_getPlan_false exhaustedAgent (sampleWorld (17 / 20)) (by rw [hev]; simp)⟩

theorem run_ready (s : Agent) (w : World) (hw : w.ready) :
    ∃ s0, run s w = runBody s0 w ∧ s0.count = s.count
      ∧ s0.temp_action_list = s.temp_action_list ∧ s0.current_actions = s.current_actions
      ∧ (s.currentSchemaId = 0 → s0.currentSchemaId = 0) := by
  rcases run_cases s w with ⟨_, h | h⟩ | ⟨h, _⟩ | ⟨h, _⟩
  · exact absurd h hw.1
  · rw [hw.2] at h
    exact absurd h (by decide)
  · exact ⟨_, h, rfl, rfl, rfl, fun _ => rfl⟩
  · exact ⟨_, h, rfl, rfl, rfl, fun h0 => h0⟩

/-- One call of `run` while the plan is used up and fewer than 4 cycles have
been skipped: no call is made and the count goes up by one. -/
theorem run_skips (s : Agent) (w : World) (hw : w.ready) (h0 : s.currentSchemaId = 0)
    (hT : s.temp_action_list = []) (hA : s.current_actions = []) (hc : s.count < 4) :
    (run s w).events = [] ∧ (run s w).flow = .returned
      ∧ (run s w).agent.currentSchemaId = 0 ∧ (run s w).agent.temp_action_list = []
      ∧ (run s w).agent.current_actions = [] ∧ (run s w).agent.count = s.count + 1 := by
  obtain ⟨s0, hr, h1, h2, h3, h4⟩ := run_ready s w hw
  rw [hr]
  rw [← h1] at hc ⊢
  rw [hT] at h2
  rw [hA] at h3
  have h5 := h4 h0
  simp [runBody, Step.andThen, checkCurrentAction, doPlanning, h2, h3, h5, hc]

/-- One call of `run` while the plan is used up and 4 cycles have been
skipped: the planner is called and the count is 0 afterwards. -/
theorem run_plans (s : Agent) (w : World) (hw : w.ready) (h0 : s.currentSchemaId = 0)
    (hT : s.temp_action_list = []) (hA : s.current_actions = []) (hc : s.count = 4) :
    Event.schemeEval "( do_planning )" ∈ (run s w).events ∧ (run s w).agent.count = 0 := by
  obtain ⟨s0, hr, h1, h2, h3, h4⟩ := run_ready s w hw
  rw [hr]
  rw [hT] at h2
  rw [hA] at h3
  have h5 := h4 h0
  have hcheck : checkCurrentAction s0 w = ⟨s0, [], .next⟩ := by
    simp [checkCurrentAction, h5]
  have hnot : ¬ s0.count < 4 := by
    rw [h1, hc]
    decide
  unfold runBody
  rw [andThen_next _ _ (by rw [hcheck]), hcheck]
  simp only [List.nil_append]
  rcases doPlanning_cases s0 w with hd | hd | hd | hd | hd
  · exfalso
    have : (doPlanning s0 w).events = [] := by rw [hd]
    revert this
    simp [doPlanning, h2, h3, hnot]
    split_ifs <;> simp
  · exfalso
    have : (doPlanning s0 w).agent.count = s0.count + 1 := by rw [hd]
    revert this
    simp only [doPlanning, h2, h3, hnot, List.isEmpty_nil, Bool.and_self, if_true, if_false]
    split_ifs <;> simp [getPlan_count] <;> omega
  · rw [andThen_stop _ _ (by rw [hd]; simp), hd]
    simp
  · rw [andThen_stop _ _ (by rw [hd]; simp), hd]
    simp [getPlan_count]
  · rw [andThen_next _ _ (by rw [hd]), hd]
    simp [dispatchNextAction_count, getPlan_count]

/-- C10: from an agent with no action running, `temp_action_list` and
`current_actions` empty and the count of skipped cycles at 0, each of the next
four calls of `run` returns without any call (so without the planner), and the
fifth calls the planner, after which the count is 0 again. -/
theorem replanning_throttle (s : Agent) (w1 w2 w3 w4 w5 : World)
    (h1 : w1.ready) (h2 : w2.ready) (h3 : w3.ready) (h4 : w4.ready) (h5 : w5.ready)
    (h0 : s.currentSchemaId = 0) (hT : s.temp_action_list = [])
    (hA : s.current_actions = []) (hc : s.count = 0) :
    ((run s w1).events = [] ∧ (run s w1).flow = .returned)
      ∧ ((run (run s w1).agent w2).events = []
          ∧ (run (run s w1).agent w2).flow = .returned)
      ∧ ((run (run (run s w1).agent w2).agent w3).events = []
          ∧ (run (run (run s w1).agent w2).agent w3).flow = .returned)
      ∧ ((run (run (run (run s w1).agent w2).agent w3).agent w4).events = []
          ∧ (run (run (run (run s w1).agent w2).agent w3).agent w4).flow = .returned)
      ∧ Event.schemeEval "( do_planning )"
          ∈ (run (run (run (run (run s w1).agent w2).agent w3).agent w4).agent w5).events
      ∧ (run (run (run (run (run s w1).agent w2).agent w3).agent w4).agent w5).agent.count
          = 0 := by
  obtain ⟨a1, a2, a3, a4, a5, a6⟩ := run_skips s w1 h1 h0 hT hA (by omega)
  obtain ⟨b1, b2, b3, b4, b5, b6⟩ := run_skips _ w2 h2 a3 a4 a5 (by omega)
  obtain ⟨c1, c2, c3, c4, c5, c6⟩ := run_skips _ w3 h3 b3 b4 b5 (by omega)
  obtain ⟨d1, d2, d3, d4, d5, d6⟩ := run_skips _ w4 h4 c3 c4 c5 (by omega)
  exact ⟨⟨a1, a2⟩, ⟨b1, b2⟩, ⟨c1, c2⟩, ⟨d1, d2⟩, run_plans _ w5 h5 d3 d4 d5 (by omega)⟩

theorem replanning_throttle_witness :
    (sampleWorld 1).ready ∧ idleAgent.currentSchemaId = 0 ∧ idleAgent.temp_action_list = []
      ∧ idleAgent.current_actions = [] ∧ idleAgent.count = 0
      ∧ ((run idleAgent (sampleWorld 1)).events = []
        ∧ (run idleAgent (sampleWorld 1)).flow = .returned)
      ∧ ((run (run idleAgent (sampleWorld 1)).agent (sampleWorld 1)).events = []
          ∧ (run (run idleAgent (sampleWorld 1)).agent (sampleWorld 1)).flow = .returned)
      ∧ ((run (run (run idleAgent (sampleWorld 1)).agent (sampleWorld 1)).agent
            (sampleWorld 1)).events = []
          ∧ (run (run (run idleAgent (sampleWorld 1)).agent (sampleWorld 1)).agent
            (sampleWorld 1)).flow = .returned)
      ∧ ((run (run (run (run idleAgent (sampleWorld 1)).agent (sampleWorld 1)).agent
            (sampleWorld 1)).agent (sampleWorld 1)).events = []
          ∧ (run (run (run (run idleAgent (sampleWorld 1)).agent (sampleWorld 1)).agent
            (sampleWorld 1)).agent (sampleWorld 1)).flow = .returned)
      ∧ Event.schemeEval "( do_planning )"
          ∈ (run (run (run (run (run idleAgent (sampleWorld 1)).agent (sampleWorld 1)).agent
              (sampleWorld 1)).agent (sampleWorld 1)).agent (sampleWorld 1)).events
      ∧ (run (run (run (run (run idleAgent (sampleWorld 1)).agent (sampleWorld 1)).agent
              (sampleWorld 1)).agent (sampleWorld 1)).agent (sampleWorld 1)).agent.count
          = 0 :=
  ⟨⟨by simp [sampleWorld], rfl⟩, rfl, rfl, rfl, rfl,
    replanning_throttle idleAgent (sampleWorld 1) (sampleWorld 1) (sampleWorld 1)
      (sampleWorld 1) (sampleWorld 1) ⟨by simp [sampleWorld], rfl⟩ ⟨by simp [sampleWorld], rfl⟩
      ⟨by simp [sampleWorld], rfl⟩ ⟨by simp [sampleWorld], rfl⟩ ⟨by simp [sampleWorld], rfl⟩
      rfl rfl rfl rfl⟩

/-- C11: the code at the failing input. With `current_actions` empty and the
one step `unknownStep` in `temp_action_list`, a step that `getActions` flattens
to nothing, `run` does not return: it reads `current_actions.back()` of the
empty vector, which is undefined behaviour. -/
theorem run_unknown_step_reads_empty :
    unknownStepAgent.current_actions = []
      ∧ unknownStepAgent.temp_action_list = [unknownStep]
      ∧ (getActions unknownStep [] (sampleWorld 0).rand).map (fun r => r.1) = some []
      ∧ (run unknownStepAgent (sampleWorld 0)).flow = .undefinedBehaviour
      ∧ (run unknownStepAgent (sampleWorld 0)).agent.current_actions = []
      ∧ (run unknownStepAgent (sampleWorld 0)).agent.temp_action_list = [] :=
  ⟨rfl, rfl, rfl, rfl, rfl, rfl⟩

/-- C17: when the running action is reported finished and not failed, then
for every result value the check of the running action leaves
`current_actions` and `temp_action_list` as they were, makes no call, and
resets `currentSchemaId` to 0. -/
theorem checkCurrentAction_finished (s : Agent) (w : World) (h0 : s.currentSchemaId ≠ 0)
    (hC : w.isFinished s.currentSchemaId = true) (hF : w.isFailed s.currentSchemaId = false) :
    (checkCurrentAction s w).agent.current_actions = s.current_actions
      ∧ (checkCurrentAction s w).agent.temp_action_list = s.temp_action_list
      ∧ (checkCurrentAction s w).agent.currentSchemaId = 0
      ∧ (checkCurrentAction s w).events = []
      ∧ (checkCurrentAction s w).flow = .next := by
  unfold checkCurrentAction
  simp only [ne_eq, h0, not_false_eq_true, if_true, hC, hF, Bool.not_false, Bool.and_self]
  cases resultStatus (w.getResult s.currentSchemaId) <;> simp

theorem checkCurrentAction_finished_witness :
    resultStatus ((resultWorld (.action_result .action_failure)).getResult
        busyAgent.currentSchemaId) = .fail
      ∧ busyAgent.current_actions = [leafB] ∧ busyAgent.temp_action_list = [leafC]
      ∧ (checkCurrentAction busyAgent (resultWorld (.action_result .action_failure))
          ).agent.current_actions = busyAgent.current_actions
      ∧ (checkCurrentAction busyAgent (resultWorld (.action_result .action_failure))
          ).agent.temp_action_list = busyAgent.temp_action_list
      ∧ (checkCurrentAction busyAgent (resultWorld (.action_result .action_failure))
          ).agent.currentSchemaId = 0
      ∧ (checkCurrentAction busyAgent (resultWorld (.action_result .action_failure))
          ).events = []
      ∧ (checkCurrentAction busyAgent (resultWorld (.action_result .action_failure))
          ).flow = .next :=
  ⟨rfl, rfl, rfl,
    checkCurrentAction_finished busyAgent (resultWorld (.action_result .action_failure))
      (by decide) rfl rfl⟩

theorem sayAction_shape (hSentenceNode hSay : Handle) (h : sayAction hSentenceNode = some hSay) :
    ∃ content listener, hSay = sayDescriptor content listener := by
  unfold sayAction at h
  simp only at h
  split_ifs at h
  exact ⟨_, _, (Option.some.inj h).symm⟩

/-- C14, as the code has it: every say action built from an utterance has a
`GROUNDED_PREDICATE_NODE` named `say` at its head, not a
`SPEECH_ACT_SCHEMA_NODE`; when it is executed it is the combo procedure `say`
that is run, through `runProcedure`, with the content and the listener as
arguments, and no scheme expression is evaluated for it. -/
theorem sayAction_is_procedure_call (s : Agent) (w : World) (hSentenceNode hSay : Handle)
    (h : sayAction hSentenceNode = some hSay) :
    ∃ content listener, hSay = sayDescriptor content listener
      ∧ getType (getOutgoingAt hSay 0) = .GROUNDED_PREDICATE_NODE
      ∧ runAction s w hSay
          = ⟨{ s with currentSchemaId :=
                  (w.runProcedure "say"
                    [Vertex.definite_object content, Vertex.definite_object listener]) },
              [Event.runProcedure "say"
                [Vertex.definite_object content, Vertex.definite_object listener]],
              .next⟩ := by
  obtain ⟨content, listener, rfl⟩ := sayAction_shape hSentenceNode hSay h
  refine ⟨content, listener, rfl, rfl, ?_⟩
  have hname : schemeFunctionName "say" = ("say", false) := by decide
  simp [runAction, sayDescriptor, getOutgoingAt, getOutgoing, getType, getName, getArity,
    hname, comboArguments]

theorem sayAction_is_procedure_call_witness :
    sayAction helloSentence = some (sayDescriptor "hello" "bob")
      ∧ ∃ content listener, sayDescriptor "hello" "bob" = sayDescriptor content listener
        ∧ getType (getOutgoingAt (sayDescriptor "hello" "bob") 0) = .GROUNDED_PREDICATE_NODE
        ∧ runAction idleAgent (sampleWorld 0) (sayDescriptor "hello" "bob")
            = ⟨{ idleAgent with currentSchemaId :=
                    ((sampleWorld 0).runProcedure "say"
                      [Vertex.definite_object content, Vertex.definite_object listener]) },
                [Event.runProcedure "say"
                  [Vertex.definite_object content, Vertex.definite_object listener]],
                .next⟩ :=
  ⟨rfl, sayAction_is_procedure_call idleAgent (sampleWorld 0) helloSentence
    (sayDescriptor "hello" "bob") rfl⟩

/-- C14 as stated fails: the say action built from the sentence
`TO: bob, CONTENT: hello` is submitted to the procedure interpreter when it is
executed, and the scheme expression `( say )` is not evaluated. -/
theorem sayAction_not_speech_act :
    sayAction helloSentence = some (sayDescriptor "hello" "bob")
      ∧ getType (getOutgoingAt (sayDescriptor "hello" "bob") 0) ≠ .SPEECH_ACT_SCHEMA_NODE
      ∧ (executeAction idleAgent (sampleWorld 0) (sayDescriptor "hello" "bob")).events
          = [Event.executeAction 0 (sayDescriptor "hello" "bob"),
              Event.runProcedure "say"
                [Vertex.definite_object "hello", Vertex.definite_object "bob"],
              Event.schemeEval "( reset_utterance_node \"utterance_sentences\" )"]
      ∧ (executeAction idleAgent (sampleWorld 0) (sayDescriptor "hello" "bob")
          ).agent.currentSchemaId = 8 :=
  ⟨rfl, by decide, rfl, rfl⟩

/-- C15, as the code has it: after a successful planning pass of `run`
(`getPlan` has returned true), `temp_action_list` is the whole outgoing set of
the plan's action list, every top-level step in list order, and so is
`plan_action_list`; `current_actions` is empty, as it was before the pass,
which `run` starts only when both lists are empty. -/
theorem doPlanning_success (s : Agent) (w : World)
    (h : Event.getPlan true ∈ (doPlanning s w).events) :
    (doPlanning s w).agent.temp_action_list = getOutgoing w.plan_action_list
      ∧ (doPlanning s w).agent.plan_action_list = getOutgoing w.plan_action_list
      ∧ (doPlanning s w).agent.current_actions = []
      ∧ s.current_actions = [] ∧ s.temp_action_list = []
      ∧ (doPlanning s w).flow = .next := by
  unfold doPlanning at h ⊢
  by_cases hE : (s.temp_action_list.isEmpty && s.current_actions.isEmpty) = true
  · have hE2 := hE
    simp only [Bool.and_eq_true, List.isEmpty_iff] at hE2
    simp only [hE, if_true] at h ⊢
    by_cases h1 : s.count < 4
    · simp [h1] at h
    · simp only [h1, if_false] at h ⊢
      by_cases h2 : w.eval_error "( do_planning )" = true
      · simp [h2] at h
      · simp only [h2, if_false] at h ⊢
        by_cases h3 : (getPlan { s with count := 0 } w).1 = false
        · simp [h3] at h
        · simp only [h3, if_false]
          have h4 : ¬ w.plan_success < 9 / 10 := by
            intro hlt
            apply h3
            simp [getPlan, hlt]
          simp [getPlan, h4, hE2.1, hE2.2]
  · simp [hE] at h

theorem doPlanning_success_witness :
    Event.getPlan true ∈ (doPlanning exhaustedAgent twoStepWorld).events
      ∧ (doPlanning exhaustedAgent twoStepWorld).agent.temp_action_list
          = getOutgoing twoStepWorld.plan_action_list
      ∧ (doPlanning exhaustedAgent twoStepWorld).agent.plan_action_list
          = getOutgoing twoStepWorld.plan_action_list
      ∧ (doPlanning exhaustedAgent twoStepWorld).agent.current_actions = []
      ∧ exhaustedAgent.current_actions = [] ∧ exhaustedAgent.temp_action_list = []
      ∧ (doPlanning exhaustedAgent twoStepWorld).flow = .next := by
  have hev : Event.getPlan true ∈ (doPlanning exhaustedAgent twoStepWorld).events := by
    simp [doPlanning, getPlan, twoStepWorld, sampleWorld, exhaustedAgent, idleAgent]
    norm_num
  exact ⟨hev, doPlanning_success exhaustedAgent twoStepWorld hev⟩

/-- C15 as stated fails: with two steps in the plan's action list,
`temp_action_list` holds two elements after the successful planning pass, not
the single root of an action tree. -/
theorem doPlanning_two_steps :
    twoStepWorld.plan_action_list = .link .LIST_LINK [leafA, leafB]
      ∧ (getPlan { exhaustedAgent with count := 0 } twoStepWorld).1 = true
      ∧ (doPlanning exhaustedAgent twoStepWorld).agent.temp_action_list = [leafA, leafB]
      ∧ (doPlanning exhaustedAgent twoStepWorld).agent.temp_action_list.length = 2 := by
  have h1 : (getPlan { exhaustedAgent with count := 0 } twoStepWorld).1 = true := by
    simp [getPlan, twoStepWorld, sampleWorld]
    norm_num
  have h2 : (doPlanning exhaustedAgent twoStepWorld).agent.temp_action_list
      = [leafA, leafB] := by
    simp [doPlanning, getPlan, twoStepWorld, sampleWorld, exhaustedAgent, idleAgent,
      getOutgoing]
    norm_num
  exact ⟨rfl, h1, h2, by rw [h2]; rfl⟩

/-- C12: the code at the failing input. The agent has `A`, then `B`, then the
step `C` left to execute; executing `A` finds the utterance
`TO: bob, CONTENT: hello`. The say action is put at the front of
`temp_action_list`, and the next calls of `run` execute `B`, then `C`, and the
say action last. -/
theorem say_action_dispatched_last :
    planLeftAgent.current_actions = [leafB, leafA]
      ∧ planLeftAgent.temp_action_list = [leafC]
      ∧ (run planLeftAgent utteranceWorld).agent.current_actions = [leafB]
      ∧ (run planLeftAgent utteranceWorld).agent.temp_action_list
          = [sayDescriptor "hello" "bob", leafC]
      ∧ dispatchedActions
          (runTicks planLeftAgent [utteranceWorld, finishedWorld, finishedWorld, finishedWorld])
          = [leafA, leafB, leafC, sayDescriptor "hello" "bob"] :=
  ⟨rfl, rfl, rfl, rfl, rfl⟩

theorem beginsWith_iff (p s : List Char) : beginsWith p s = true ↔ ∃ t, s = p ++ t := by
  induction p generalizing s with
  | nil => simp [beginsWith]
  | cons a p ih =>
    cases s with
    | nil => simp [beginsWith]
    | cons c cs =>
      simp only [beginsWith, Bool.and_eq_true, beq_iff_eq, ih, List.cons_append,
        List.cons.injEq]
      constructor
      · rintro ⟨rfl, t, rfl⟩
        exact ⟨t, rfl, rfl⟩
      · rintro ⟨t, rfl, rfl⟩
        exact ⟨rfl, t, rfl⟩

theorem findSubstr_first (p before after : List Char)
    (hfirst : ∀ b1 a1, before ++ p ++ after = b1 ++ p ++ a1 → before.length ≤ b1.length) :
    findSubstr p (before ++ p ++ after) = some before.length := by
  induction before with
  | nil =>
    have hb : beginsWith p ([] ++ p ++ after) = true :=
      (beginsWith_iff p _).mpr ⟨after, by simp⟩
    cases hp : ([] ++ p ++ after) with
    | nil =>
      rw [hp] at hb
      simp [findSubstr, hb]
    | cons c cs =>
      rw [hp] at hb
      simp [findSubstr, hb]
  | cons b bs ih =>
    have hnot : beginsWith p (b :: (bs ++ p ++ after)) = false := by
      cases hb : beginsWith p (b :: (bs ++ p ++ after)) with
      | false => rfl
      | true =>
        obtain ⟨t, ht⟩ := (beginsWith_iff p _).mp hb
        have := hfirst [] t (by simpa using ht)
        simp at this
    have hrest : ∀ b1 a1, bs ++ p ++ after = b1 ++ p ++ a1 → bs.length ≤ b1.length := by
      intro b1 a1 h
      have := hfirst (b :: b1) a1 (by simp [h])
      simpa using this
    have hstep : findSubstr p (b :: (bs ++ p ++ after))
        = (findSubstr p (bs ++ p ++ after)).map (· + 1) := by
      rw [findSubstr, hnot]
      rfl
    simp only [List.cons_append, List.length_cons]
    rw [hstep, ih hrest]
    rfl

theorem join_cons (x : String) (xs : List String) : String.join (x :: xs) = x ++ String.join xs := by
  have key : ∀ (l : List String) (acc : String),
      List.foldl (fun r s => r ++ s) acc l = acc ++ List.foldl (fun r s => r ++ s) "" l := by
    intro l
    induction l with
    | nil => intro acc; simp
    | cons y ys ih =>
      intro acc
      simp only [List.foldl_cons]
      rw [ih (acc ++ y), ih ("" ++ y)]
      simp [String.append_assoc]
  unfold String.join
  simp only [List.foldl_cons]
  rw [key xs ("" ++ x)]
  simp

theorem schemeArguments_eq_join (arguments : HandleSeq) :
    schemeArguments arguments = String.join (arguments.map argumentText) := by
  induction arguments with
  | nil => rfl
  | cons a rest ih =>
    simp only [schemeArguments, List.map_cons, join_cons, ih, argumentText]
    split_ifs
    · rfl
    · have h : (" " : String) ++ "\"" = " \"" := by decide
      rw [h]

/-- C16: for an action that is not a speech act schema, whose name holds the
marker `scm:` (first at the place after `before`), whose function name `n`, the
text after the marker, trimmed, is not `answer_question`: the expression
evaluated is `( `, then `n`, then for each argument in order a space and its
text (as it is for a number, in double quotes otherwise), then ` )`; without
an argument list it is `( n )`. -/
theorem runAction_scheme_expression (s : Agent) (w : World) (h : Handle)
    (before after : List Char)
    (ht : getType (getOutgoingAt h 0) ≠ .SPEECH_ACT_SCHEMA_NODE)
    (hname : (getName (getOutgoingAt h 0)).data = before ++ "scm:".data ++ after)
    (hfirst : ∀ b1 a1, (getName (getOutgoingAt h 0)).data = b1 ++ "scm:".data ++ a1 →
      before.length ≤ b1.length)
    (hn : String.mk (trim after) ≠ "answer_question") :
    (getArity h = 2 →
        runAction s w h
          = ⟨s, [Event.schemeEval
                  (callExpression (String.mk (trim after)) (getOutgoing (getOutgoingAt h 1)))],
              .next⟩)
      ∧ (getArity h ≠ 2 →
        runAction s w h = ⟨s, [Event.schemeEval ("( " ++ String.mk (trim after) ++ " )")], .next⟩) := by
  have hfn : schemeFunctionName (getName (getOutgoingAt h 0)) = (String.mk (trim after), true) := by
    unfold schemeFunctionName
    rw [hname] at hfirst ⊢
    rw [findSubstr_first _ before after hfirst]
    have hlen : ("scm:".data).length = 4 := rfl
    have hdrop : (before ++ "scm:".data ++ after).drop (before.length + 4) = after := by
      rw [List.append_assoc, List.drop_append, List.drop_append_of_le_length (by simp [hlen])]
      simp [hlen]
    simp only [hdrop]
  constructor
  · intro ha
    unfold runAction
    simp only [hfn, ht, if_false, if_true, hn, ha, callExpression, schemeArguments_eq_join,
      String.append_assoc]
  · intro ha
    unfold runAction
    simp only [hfn, ht, if_false, if_true, hn, ha, schemeArguments]
    simp

theorem runAction_scheme_expression_witness :
    getArity schemeCall = 2
      ∧ getName (getOutgoingAt schemeCall 0) = "scm: go_to "
      ∧ String.mk (trim " go_to ".data) = "go_to"
      ∧ callExpression "go_to" (getOutgoing (getOutgoingAt schemeCall 1))
          = "( go_to 3 \"home\" )"
      ∧ runAction idleAgent (sampleWorld 0) schemeCall
          = ⟨idleAgent,
              [Event.schemeEval
                (callExpression (String.mk (trim " go_to ".data))
                  (getOutgoing (getOutgoingAt schemeCall 1)))],
              .next⟩ :=
  ⟨rfl, rfl, by decide, by decide,
    (runAction_scheme_expression idleAgent (sampleWorld 0) schemeCall [] " go_to ".data
      (by decide) rfl (fun _ _ _ => Nat.zero_le _) (by decide)).1 rfl⟩

theorem dropWhile_append_of_all (p : Char → Bool) (ws r : List Char)
    (h : ∀ c ∈ ws, p c = true) : (ws ++ r).dropWhile p = r.dropWhile p := by
  induction ws with
  | nil => rfl
  | cons a ws ih =>
    have ha : p a = true := h a (List.mem_cons_self a ws)
    simp only [List.cons_append, List.dropWhile_cons, ha, if_true]
    exact ih fun c hc => h c (List.mem_cons_of_mem a hc)

theorem dropWhile_of_head (p : Char → Bool) (r : List Char)
    (h : ∀ c, r.head? = some c → p c = false) : r.dropWhile p = r := by
  cases r with
  | nil => rfl
  | cons a r =>
    have ha : p a = false := h a rfl
    simp [List.dropWhile_cons, ha]

theorem head_dropWhile (p : Char → Bool) (l : List Char) :
    ∀ c, (l.dropWhile p).head? = some c → p c = false := by
  induction l with
  | nil => intro c h; simp at h
  | cons a l ih =>
    intro c h
    by_cases ha : p a = true
    · simp only [List.dropWhile_cons, ha, if_true] at h
      exact ih c h
    · simp only [List.dropWhile_cons, ha, Bool.false_eq_true, if_false, List.head?_cons,
        Option.some.injEq] at h
      subst h
      simpa using ha

theorem matchMarker_iff (marker s rest : List Char) :
    matchMarker marker s = some rest ↔ MarkerAt marker s rest := by
  constructor
  · intro h
    unfold matchMarker at h
    by_cases hb : beginsWith marker s = true
    · obtain ⟨t, rfl⟩ := (beginsWith_iff marker s).mp hb
      simp only [hb, if_true, List.drop_left] at h
      cases hd : t.dropWhile isspace with
      | nil => simp [hd] at h
      | cons c r =>
        rw [hd] at h
        by_cases hc : c = ':'
        · subst hc
          simp only [if_true, Option.some.injEq] at h
          refine ⟨t.takeWhile isspace, r.takeWhile isspace, ?_, ?_, ?_, ?_⟩
          · rw [← h, List.takeWhile_append_dropWhile, List.append_assoc, ← hd,
              List.takeWhile_append_dropWhile]
          · intro c hc
            exact List.mem_takeWhile_imp hc
          · intro c hc
            exact List.mem_takeWhile_imp hc
          · rw [← h]
            exact head_dropWhile isspace r
        · simp [hc] at h
    · simp [hb] at h
  · rintro ⟨ws1, ws2, rfl, h1, h2, h3⟩
    unfold matchMarker
    have hb : beginsWith marker (marker ++ ws1 ++ ':' :: (ws2 ++ rest)) = true :=
      (beginsWith_iff marker _).mpr ⟨ws1 ++ ':' :: (ws2 ++ rest), by simp⟩
    have hcolon : isspace ':' = false := by decide
    have hd : ((marker ++ ws1 ++ ':' :: (ws2 ++ rest)).drop marker.length).dropWhile isspace
        = ':' :: (ws2 ++ rest) := by
      rw [List.append_assoc, List.drop_left, dropWhile_append_of_all isspace ws1 _ h1]
      simp [List.dropWhile_cons, hcolon]
    rw [if_pos hb, hd]
    simp only [if_true]
    rw [dropWhile_append_of_all isspace ws2 rest h2, dropWhile_of_head isspace rest h3]

theorem searchMarker_of_match (marker s rest : List Char) (h : matchMarker marker s = some rest) :
    searchMarker marker s = some rest := by
  cases s with
  | nil => simpa [searchMarker] using h
  | cons c cs => simp [searchMarker, h]

theorem searchMarker_cons_of_none (marker : List Char) (c : Char) (cs : List Char)
    (h : matchMarker marker (c :: cs) = none) :
    searchMarker marker (c :: cs) = searchMarker marker cs := by
  simp [searchMarker, h]

theorem searchMarker_of_first (marker text rest : List Char) (h : FirstMarker marker text rest) :
    searchMarker marker text = some rest := by
  obtain ⟨before, found, rfl, hm, hmin⟩ := h
  induction before with
  | nil => exact searchMarker_of_match marker _ rest ((matchMarker_iff marker found rest).mpr hm)
  | cons b bs ih =>
    have hnone : matchMarker marker (b :: (bs ++ found)) = none := by
      cases hc : matchMarker marker (b :: (bs ++ found)) with
      | none => rfl
      | some r =>
        exact absurd ((matchMarker_iff marker _ r).mp hc)
          (hmin [] (b :: (bs ++ found)) r (by simp) (by simp))
    rw [List.cons_append, searchMarker_cons_of_none marker b _ hnone]
    apply ih
    intro before1 found1 rest1 heq hlt
    exact hmin (b :: before1) found1 rest1 (by simp [heq]) (by simpa using hlt)

theorem searchMarker_of_none (marker text : List Char) (h : NoMarker marker text) :
    searchMarker marker text = none := by
  induction text with
  | nil =>
    cases hc : matchMarker marker [] with
    | none => simpa [searchMarker] using hc
    | some r => exact absurd ((matchMarker_iff marker _ r).mp hc) (h [] [] r rfl)
  | cons c cs ih =>
    have hnone : matchMarker marker (c :: cs) = none := by
      cases hc : matchMarker marker (c :: cs) with
      | none => rfl
      | some r => exact absurd ((matchMarker_iff marker _ r).mp hc) (h [] (c :: cs) r rfl)
    rw [searchMarker_cons_of_none marker c cs hnone]
    apply ih
    intro before found rest heq
    exact h (c :: before) found rest (by simp [heq])

theorem first_of_searchMarker (marker text rest : List Char)
    (h : searchMarker marker text = some rest) : FirstMarker marker text rest := by
  induction text with
  | nil =>
    have hm : matchMarker marker [] = some rest := by simpa [searchMarker] using h
    exact ⟨[], [], rfl, (matchMarker_iff marker [] rest).mp hm, fun _ _ _ _ hlt => by simp at hlt⟩
  | cons c cs ih =>
    cases hc : matchMarker marker (c :: cs) with
    | some r =>
      have hr : r = rest := by
        rw [searchMarker_of_match marker _ r hc] at h
        exact Option.some.inj h
      subst hr
      exact ⟨[], c :: cs, rfl, (matchMarker_iff marker _ r).mp hc,
        fun _ _ _ _ hlt => by simp at hlt⟩
    | none =>
      rw [searchMarker_cons_of_none marker c cs hc] at h
      obtain ⟨before, found, hcs, hm, hmin⟩ := ih h
      refine ⟨c :: before, found, by simp [hcs], hm, ?_⟩
      intro before1 found1 rest1 heq hlt hm1
      cases before1 with
      | nil =>
        simp only [List.nil_append] at heq
        subst heq
        rw [(matchMarker_iff marker _ rest1).mpr hm1] at hc
        exact absurd hc (by simp)
      | cons b1 bs1 =>
        simp only [List.cons_append, List.cons.injEq] at heq
        exact hmin bs1 found1 rest1 heq.2 (by simpa using hlt) hm1

theorem mk_eq_empty_iff (c : List Char) : String.mk c = "" ↔ c = [] := by
  constructor
  · intro h
    have := congrArg String.data h
    simpa using this
  · rintro rfl
    rfl

/-- C13: for the text of every utterance entry, the listener is the run of
characters other than comma and white space that follows the first `TO`,
optional white space, `:`, optional white space (empty when there is no such
marker), the content is the text that follows `CONTENT`, optional white
space, `:`, optional white space; the entry gives one say action with that
content and listener when the content is not empty, and none when the content
is empty or its marker is missing. -/
theorem sayAction_listener_content (hSentenceNode : Handle) :
    (∀ content rest,
        FirstMarker "CONTENT".data (getName hSentenceNode).data content → content ≠ [] →
        FirstMarker "TO".data (getName hSentenceNode).data rest →
        sayAction hSentenceNode
          = some (sayDescriptor (String.mk content)
              (String.mk (rest.takeWhile fun c => c != ',' && !isspace c))))
      ∧ (∀ content,
          FirstMarker "CONTENT".data (getName hSentenceNode).data content → content ≠ [] →
          NoMarker "TO".data (getName hSentenceNode).data →
          sayAction hSentenceNode = some (sayDescriptor (String.mk content) ""))
      ∧ (FirstMarker "CONTENT".data (getName hSentenceNode).data [] →
          sayAction hSentenceNode = none)
      ∧ (NoMarker "CONTENT".data (getName hSentenceNode).data →
          sayAction hSentenceNode = none) := by
  have hpred : (fun c : Char => !(c == ',' || isspace c))
      = fun c : Char => c != ',' && !isspace c := by
    funext c
    simp [bne, Bool.not_or]
  refine ⟨?_, ?_, ?_, ?_⟩
  · intro content rest hc hne hl
    have hne2 : String.mk content ≠ "" := fun h => hne ((mk_eq_empty_iff content).mp h)
    simp only [sayAction, expListener, expContent, searchMarker_of_first _ _ _ hc,
      searchMarker_of_first _ _ _ hl, Option.map_some', Option.getD_some, hne2, if_false,
      hpred, sayDescriptor]
  · intro content hc hne hl
    have hne2 : String.mk content ≠ "" := fun h => hne ((mk_eq_empty_iff content).mp h)
    simp only [sayAction, expListener, expContent, searchMarker_of_first _ _ _ hc,
      searchMarker_of_none _ _ hl, Option.map_some', Option.map_none', Option.getD_some,
      Option.getD_none, hne2, if_false, sayDescriptor]
  · intro hc
    have he : String.mk [] = "" := rfl
    simp only [sayAction, expContent, searchMarker_of_first _ _ _ hc, Option.map_some',
      Option.getD_some, he, if_true]
  · intro hc
    simp only [sayAction, expContent, searchMarker_of_none _ _ hc, Option.map_none',
      Option.getD_none, if_true]

theorem sayAction_listener_content_witness :
    getName helloSentence = "TO: bob, CONTENT: hello"
      ∧ FirstMarker "CONTENT".data (getName helloSentence).data "hello".data
      ∧ FirstMarker "TO".data (getName helloSentence).data "bob, CONTENT: hello".data
      ∧ String.mk ("bob, CONTENT: hello".data.takeWhile fun c => c != ',' && !isspace c) = "bob"
      ∧ sayAction helloSentence = some (sayDescriptor "hello" "bob")
      ∧ FirstMarker "CONTENT".data (getName emptySentence).data []
      ∧ sayAction emptySentence = none :=
  ⟨rfl, first_of_searchMarker _ _ _ rfl, first_of_searchMarker _ _ _ rfl, by decide,
    (sayAction_listener_content helloSentence).1 "hello".data "bob, CONTENT: hello".data
      (first_of_searchMarker _ _ _ rfl) (by decide) (first_of_searchMarker _ _ _ rfl),
    first_of_searchMarker _ _ _ rfl,
    (sayAction_listener_content emptySentence).2.2.1 (first_of_searchMarker _ _ _ rfl)⟩

theorem dispatchedActions_append (a b : List Event) :
    dispatchedActions (a ++ b) = dispatchedActions a ++ dispatchedActions b := by
  induction a with
  | nil => rfl
  | cons e rest ih =>
    cases e <;> simp [dispatchedActions, ih]

theorem dispatchedActions_of_none (l : List Event) (h : ∀ e ∈ l, e.isExecuteAction = false) :
    dispatchedActions l = [] := by
  induction l with
  | nil => rfl
  | cons e rest ih =>
    have he := h e (List.mem_cons_self e rest)
    have hrest := ih fun x hx => h x (List.mem_cons_of_mem e hx)
    cases e <;> simp_all [dispatchedActions, Event.isExecuteAction]

theorem comboArguments_total (w : World) (hl : ∀ text, ∃ num_c, w.lexical_cast text = some num_c)
    (arguments : HandleSeq) : ∃ args, comboArguments w arguments = some args := by
  induction arguments with
  | nil => exact ⟨[], rfl⟩
  | cons a rest ih =>
    obtain ⟨args, hargs⟩ := ih
    obtain ⟨q, hq⟩ := hl (getName a)
    by_cases ht : getType a = .NUMBER_NODE
    · exact ⟨Vertex.contin q :: args, by simp [comboArguments, ht, hq, hargs]⟩
    · exact ⟨Vertex.definite_object (getName a) :: args, by simp [comboArguments, ht, hargs]⟩

theorem runAction_steady (s : Agent) (w : World) (h : Handle) (hw : w.steady) :
    (runAction s w h).flow = .next
      ∧ (runAction s w h).agent.current_actions = s.current_actions
      ∧ (runAction s w h).agent.temp_action_list = s.temp_action_list
      ∧ dispatchedActions (runAction s w h).events = [] := by
  unfold runAction
  simp only
  generalize (if getArity h = 2 then getOutgoing (getOutgoingAt h 1) else []) = hArguments
  obtain ⟨args, hargs⟩ := comboArguments_total w hw.2.2.2 hArguments
  split_ifs <;> simp [hargs, dispatchedActions]

theorem executeAction_steady (s : Agent) (w : World) (h : Handle) (hw : w.steady) :
    (executeAction s w h).flow = .next
      ∧ (executeAction s w h).agent.current_actions = s.current_actions
      ∧ (executeAction s w h).agent.temp_action_list = s.temp_action_list
      ∧ dispatchedActions (executeAction s w h).events = [h] := by
  obtain ⟨h1, h2, h3, h4⟩ := runAction_steady s w h hw
  unfold executeAction
  rw [andThen_next _ _ rfl]
  simp only
  rw [andThen_next _ _ h1]
  simp only [generateSayActions, hw.2.2.1, insertSayActions, h2, h3, List.singleton_append,
    dispatchedActions, dispatchedActions_append, h4, List.nil_append, and_self, true_and,
    List.append_eq]

theorem dispatchNextAction_of_next (s s1 : Agent) (w : World) (hw : w.steady)
    (h : nextAction s w = ⟨s1, [], .next⟩) :
    dispatchedActions (dispatchNextAction s w).events = [s1.current_action]
      ∧ (dispatchNextAction s w).agent.current_actions = s1.current_actions
      ∧ (dispatchNextAction s w).agent.temp_action_list = s1.temp_action_list := by
  obtain ⟨h1, h2, h3, h4⟩ := executeAction_steady s1 w s1.current_action hw
  unfold dispatchNextAction
  rw [andThen_next _ _ (by rw [h]), h]
  simp only [List.nil_append]
  rw [andThen_next _ _ h1]
  simp only [List.append_nil]
  exact ⟨h4, h2, h3⟩

theorem nextAction_of_current (s : Agent) (w : World) (init : HandleSeq) (a : Handle)
    (h : s.current_actions = init ++ [a]) :
    nextAction s w = ⟨{ s with current_action := a, current_actions := init }, [], .next⟩ := by
  unfold nextAction
  rw [h, popBack_append_singleton]
  simp

theorem nextAction_of_step (s : Agent) (w : World) (tinit : HandleSeq) (t a : Handle)
    (more : HandleSeq) (hc : s.current_actions = []) (ht : s.temp_action_list = tinit ++ [t])
    (hp : isPlanTree t = true) (hf : (flatten t w.rand).1 = a :: more) :
    nextAction s w
      = ⟨{ s with
            temp_action_list := tinit
            current_action := a
            current_actions := more.reverse }, [], .next⟩ := by
  have hg := getActions_flatten t hp [] w.rand
  rw [hf] at hg
  simp only [List.reverse_cons, List.append_nil] at hg
  unfold nextAction
  rw [hc, ht, popBack_append_singleton]
  simp only [List.isEmpty_nil, Bool.not_true, Bool.false_eq_true, if_false, hg,
    popBack_append_singleton]
  simp

theorem dispatchNextAction_summary (s : Agent) (w : World) (hw : w.steady)
    (hsteps : ∀ t ∈ s.temp_action_list, IsActionStep t)
    (hne : s.current_actions ≠ [] ∨ s.temp_action_list ≠ []) :
    ∃ a, dispatchedActions (dispatchNextAction s w).events = [a]
      ∧ (∀ t ∈ (dispatchNextAction s w).agent.temp_action_list, IsActionStep t)
      ∧ ∀ gs1 : List RandGen,
          gs1.length = (dispatchNextAction s w).agent.temp_action_list.length →
          ∃ gs : List RandGen, gs.length = s.temp_action_list.length
            ∧ s.current_actions.reverse ++ flattenSteps s.temp_action_list.reverse gs
                = a :: ((dispatchNextAction s w).agent.current_actions.reverse
                    ++ flattenSteps (dispatchNextAction s w).agent.temp_action_list.reverse gs1) := by
  rcases List.eq_nil_or_concat s.current_actions with hc | ⟨init, a, hc⟩
  all_goals try rw [List.concat_eq_append] at hc
  · have hT : s.temp_action_list ≠ [] := by
      rcases hne with h | h
      · exact absurd hc h
      · exact h
    rcases List.eq_nil_or_concat s.temp_action_list with ht | ⟨tinit, t, ht⟩
    all_goals try rw [List.concat_eq_append] at ht
    · exact absurd ht hT
    · have hgood : IsActionStep t := hsteps t (by rw [ht]; simp)
      obtain ⟨a, more, hf⟩ : ∃ a more, (flatten t w.rand).1 = a :: more := by
        cases hfl : (flatten t w.rand).1 with
        | nil => exact absurd hfl (hgood.2 w.rand)
        | cons a more => exact ⟨a, more, rfl⟩
      obtain ⟨h1, h2, h3⟩ := dispatchNextAction_of_next s _ w hw
        (nextAction_of_step s w tinit t a more hc ht hgood.1 hf)
      refine ⟨a, h1, ?_, ?_⟩
      · rw [h3]
        intro x hx
        exact hsteps x (by rw [ht]; exact List.mem_append_left _ hx)
      · intro gs1 hlen
        rw [h2, h3] at *
        refine ⟨w.rand :: gs1, by simp [ht, hlen], ?_⟩
        simp [hc, ht, flattenSteps, hf]
  · obtain ⟨h1, h2, h3⟩ := dispatchNextAction_of_next s _ w hw
      (nextAction_of_current s w init a hc)
    refine ⟨a, h1, ?_, ?_⟩
    · rw [h3]
      exact hsteps
    · intro gs1 hlen
      rw [h2, h3] at *
      exact ⟨gs1, hlen, by simp [hc]⟩

theorem run_entry (s : Agent) (w : World) (hw : w.ready) :
    ∃ s0, run s w = runBody s0 w ∧ s0.count = s.count
      ∧ s0.temp_action_list = s.temp_action_list ∧ s0.current_actions = s.current_actions
      ∧ (stillRunning s w = false →
          s0.currentSchemaId = 0 ∨ w.isFinished s0.currentSchemaId = true)
      ∧ (stillRunning s w = true →
          s0.currentSchemaId ≠ 0 ∧ w.isFinished s0.currentSchemaId = false) := by
  rcases run_cases s w with ⟨_, h | h⟩ | ⟨h, hb⟩ | ⟨h, hb⟩
  · exact absurd h hw.1
  · rw [hw.2] at h
    exact absurd h (by decide)
  · refine ⟨_, h, rfl, rfl, rfl, fun _ => Or.inl rfl, ?_⟩
    intro hs
    simp [stillRunning, hb] at hs
  · refine ⟨_, h, rfl, rfl, rfl, ?_, ?_⟩
    · intro hs
      simp only [stillRunning, hb, Bool.true_and, Bool.and_eq_false_imp, bne_iff_ne, ne_eq,
        Bool.not_eq_false'] at hs
      by_cases h0 : s.currentSchemaId = 0
      · exact Or.inl h0
      · exact Or.inr (hs h0)
    · intro hs
      simp only [stillRunning, hb, Bool.true_and, Bool.and_eq_true, bne_iff_ne, ne_eq,
        Bool.not_eq_true'] at hs
      exact hs

theorem checkCurrentAction_go (s : Agent) (w : World) (hw : w.steady)
    (h : s.currentSchemaId = 0 ∨ w.isFinished s.currentSchemaId = true) :
    ∃ s1, checkCurrentAction s w = ⟨s1, [], .next⟩
      ∧ s1.current_actions = s.current_actions ∧ s1.temp_action_list = s.temp_action_list
      ∧ s1.count = s.count := by
  unfold checkCurrentAction
  by_cases h0 : s.currentSchemaId = 0
  · exact ⟨s, by simp [h0], rfl, rfl, rfl⟩
  · have hC : w.isFinished s.currentSchemaId = true := by
      rcases h with h | h
      · exact absurd h h0
      · exact h
    refine ⟨{ s with currentSchemaId := 0 }, ?_, rfl, rfl, rfl⟩
    simp only [ne_eq, h0, not_false_eq_true, if_true, hC, hw.2.1, Bool.not_false,
      Bool.and_self]
    cases resultStatus (w.getResult s.currentSchemaId) <;> rfl

/-- A call of `run` that finds the action still running, and does not stop it
for a time-out, makes no call and leaves the two lists as they are. -/
theorem run_waits (s : Agent) (w : World) (hw : w.steady) (hs : stillRunning s w = true)
    (hno : ∀ e ∈ (run s w).events, e.isStopProcedure = false) :
    (run s w).events = [] ∧ (run s w).agent.current_actions = s.current_actions
      ∧ (run s w).agent.temp_action_list = s.temp_action_list := by
  obtain ⟨s0, hr, _, hT, hA, _, hstill⟩ := run_entry s w hw.1
  obtain ⟨h0, hC⟩ := hstill hs
  rw [hr] at hno ⊢
  by_cases ht : w.timeAtCheck - s0.timeStartCurrentAction > s0.procedureExecutionTimeout
  · exfalso
    have hcheck : (checkCurrentAction s0 w).events
        = [Event.setPendingActionPlansFailed, Event.stopProcedure s0.currentSchemaId] := by
      unfold checkCurrentAction
      simp [h0, hC, hw.2.1, ht]
    have hmem : Event.stopProcedure s0.currentSchemaId ∈ (runBody s0 w).events := by
      unfold runBody
      by_cases hf : (checkCurrentAction s0 w).flow = .next
      · rw [andThen_next _ _ hf, hcheck]
        simp
      · rw [andThen_stop _ _ hf, hcheck]
        simp
    simpa [Event.isStopProcedure] using hno _ hmem
  · have hcheck : checkCurrentAction s0 w = ⟨s0, [], .returned⟩ := by
      unfold checkCurrentAction
      simp [h0, hC, hw.2.1, ht]
    have hflow : (checkCurrentAction s0 w).flow ≠ .next := by
      rw [hcheck]
      simp
    unfold runBody
    rw [andThen_stop _ _ hflow, hcheck]
    exact ⟨rfl, hA, hT⟩

theorem doPlanning_events_dispatch (s : Agent) (w : World) :
    dispatchedActions (doPlanning s w).events = [] := by
  apply dispatchedActions_of_none
  intro e he
  rcases doPlanning_events_kind s w e he with rfl | ⟨_, rfl⟩ | ⟨_, rfl⟩ | ⟨_, rfl⟩ <;> rfl

/-- A call of `run` in a steady world that does not find an action still
running, with something left of the plan: it does what `dispatchNextAction`
does on an agent with the same two lists. -/
theorem run_steady_step (s : Agent) (w : World) (hw : w.steady)
    (hs : stillRunning s w = false)
    (hne : s.current_actions ≠ [] ∨ s.temp_action_list ≠ []) :
    ∃ s1, s1.current_actions = s.current_actions ∧ s1.temp_action_list = s.temp_action_list
      ∧ dispatchedActions (run s w).events = dispatchedActions (dispatchNextAction s1 w).events
      ∧ (run s w).agent = (dispatchNextAction s1 w).agent := by
  obtain ⟨s0, hr, _, hT0, hA0, hgo, _⟩ := run_entry s w hw.1
  obtain ⟨s1, hc, hA1, hT1, _⟩ := checkCurrentAction_go s0 w hw (hgo hs)
  have hplan : doPlanning s1 w = ⟨s1, [], .next⟩ := by
    unfold doPlanning
    have hE : (s1.temp_action_list.isEmpty && s1.current_actions.isEmpty) = false := by
      rw [hA1, hT1, hA0, hT0]
      rcases hne with h | h
      · simp [List.isEmpty_iff, h]
      · simp [List.isEmpty_iff, h]
    simp [hE]
  refine ⟨s1, by rw [hA1, hA0], by rw [hT1, hT0], ?_, ?_⟩
  · rw [hr]
    unfold runBody
    rw [andThen_next _ _ (by rw [hc]), hc]
    simp only [List.nil_append]
    rw [andThen_next _ _ (by rw [hplan]), hplan]
    simp
  · rw [hr]
    unfold runBody
    rw [andThen_next _ _ (by rw [hc]), hc]
    simp only [List.nil_append]
    rw [andThen_next _ _ (by rw [hplan]), hplan]

/-- A call of `run` in a steady world that makes a successful planning pass:
it goes on as `dispatchNextAction` does on an agent with `current_actions`
empty and the steps of the new plan in `temp_action_list`. -/
theorem run_steady_planning (s : Agent) (w : World) (hw : w.steady)
    (hs : stillRunning s w = false)
    (hT : s.temp_action_list = []) (hA : s.current_actions = []) (hcount : ¬ s.count < 4)
    (herr : w.eval_error "( do_planning )" = false) (hmean : 9 / 10 ≤ w.plan_success) :
    ∃ s1, s1.current_actions = [] ∧ s1.temp_action_list = getOutgoing w.plan_action_list
      ∧ dispatchedActions (run s w).events = dispatchedActions (dispatchNextAction s1 w).events
      ∧ (run s w).agent = (dispatchNextAction s1 w).agent := by
  obtain ⟨s0, hr, hc0, hT0, hA0, hgo, _⟩ := run_entry s w hw.1
  obtain ⟨s1, hc, hA1, hT1, hc1⟩ := checkCurrentAction_go s0 w hw (hgo hs)
  have hnot : ¬ w.plan_success < 9 / 10 := not_lt.mpr hmean
  have hflow : (doPlanning s1 w).flow = .next := by
    unfold doPlanning
    simp [hA1, hT1, hA0, hT0, hA, hT, hc1, hc0, hcount, herr, getPlan, hnot]
  have hagentA : (doPlanning s1 w).agent.current_actions = [] := by
    unfold doPlanning
    simp [hA1, hT1, hA0, hT0, hA, hT, hc1, hc0, hcount, herr, getPlan, hnot]
  have hagentT : (doPlanning s1 w).agent.temp_action_list = getOutgoing w.plan_action_list := by
    unfold doPlanning
    simp [hA1, hT1, hA0, hT0, hA, hT, hc1, hc0, hcount, herr, getPlan, hnot]
  refine ⟨(doPlanning s1 w).agent, hagentA, hagentT, ?_, ?_⟩
  · rw [hr]
    unfold runBody
    rw [andThen_next _ _ (by rw [hc]), hc]
    simp only [List.nil_append]
    rw [andThen_next _ _ hflow]
    simp [dispatchedActions_append, doPlanning_events_dispatch]
  · rw [hr]
    unfold runBody
    rw [andThen_next _ _ (by rw [hc]), hc]
    simp only [List.nil_append]
    rw [andThen_next _ _ hflow]

/-- In steady worlds without a time-out the actions are executed from the back
of `current_actions`, then step after step from the back of
`temp_action_list`, one in each call of `run` that does not find an action
still running. -/
theorem runTicks_steady (ws : List World) :
    ∀ s : Agent, (∀ w ∈ ws, w.steady) → (∀ e ∈ runTicks s ws, e.isStopProcedure = false) →
      (∀ t ∈ s.temp_action_list, IsActionStep t) →
      ∃ gs : List RandGen, gs.length = s.temp_action_list.length
        ∧ (dispatchedActions (runTicks s ws)).take
              (s.current_actions.reverse ++ flattenSteps s.temp_action_list.reverse gs).length
            = (s.current_actions.reverse ++ flattenSteps s.temp_action_list.reverse gs).take
                (proceedingCalls s ws) := by
  induction ws with
  | nil =>
    intro s _ _ _
    exact ⟨List.replicate s.temp_action_list.length (constantRand 0), by simp,
      by simp [runTicks, dispatchedActions, proceedingCalls]⟩
  | cons w ws ih =>
    intro s hws hno hsteps
    have hw : w.steady := hws w (List.mem_cons_self w ws)
    have hws1 : ∀ x ∈ ws, x.steady := fun x hx => hws x (List.mem_cons_of_mem w hx)
    have hno0 : ∀ e ∈ (run s w).events, e.isStopProcedure = false := fun e he =>
      hno e (by rw [runTicks]; exact List.mem_append_left _ he)
    have hno1 : ∀ e ∈ runTicks (run s w).agent ws, e.isStopProcedure = false := fun e he =>
      hno e (by rw [runTicks]; exact List.mem_append_right _ he)
    cases hs : stillRunning s w with
    | true =>
      obtain ⟨hev, hA, hT⟩ := run_waits s w hw hs hno0
      obtain ⟨gs, hlen, htake⟩ := ih (run s w).agent hws1 hno1 (by rw [hT]; exact hsteps)
      rw [hA, hT] at htake
      rw [hT] at hlen
      refine ⟨gs, hlen, ?_⟩
      simp only [runTicks, hev, List.nil_append, proceedingCalls, hs, if_true, Nat.zero_add]
      exact htake
    | false =>
      by_cases hne : s.current_actions ≠ [] ∨ s.temp_action_list ≠ []
      · obtain ⟨s1, hA1, hT1, hD, hag⟩ := run_steady_step s w hw hs hne
        obtain ⟨a, hda, hgood, hgs⟩ := dispatchNextAction_summary s1 w hw
          (by rw [hT1]; exact hsteps) (by rw [hA1, hT1]; exact hne)
        rw [← hag] at hgood hgs
        obtain ⟨gs1, hlen1, htake⟩ := ih (run s w).agent hws1 hno1 hgood
        obtain ⟨gs, hlen, hF⟩ := hgs gs1 hlen1
        rw [hA1, hT1] at hF
        rw [hT1] at hlen
        refine ⟨gs, hlen, ?_⟩
        rw [hF]
        simp only [runTicks, dispatchedActions_append, hD, hda, List.singleton_append,
          List.length_cons, List.take_succ_cons, htake, proceedingCalls, hs,
          Bool.false_eq_true, if_false, Nat.add_comm 1]
      · have hA : s.current_actions = [] := by
          by_contra h
          exact hne (Or.inl h)
        have hT : s.temp_action_list = [] := by
          by_contra h
          exact hne (Or.inr h)
        exact ⟨[], by simp [hT], by simp [hA, hT, flattenSteps]⟩

/-- C18: a successful planning pass reads the action list with the steps
`t1 .. tn`, and in this call of `run` and the following ones no action fails
or produces an utterance (the worlds are steady) and none is stopped for a
time-out. Then the actions executed are, one in each call that does not find
an action still running, those of `tn`, then those of `t(n-1)`, and so on down
to `t1`, each step flattened in depth-first order when its turn comes: every
action of a later step is executed before any action of an earlier step. -/
theorem steps_dispatched_last_to_first (s : Agent) (w0 : World) (ws : List World)
    (h0 : w0.steady) (hws : ∀ w ∈ ws, w.steady)
    (hno : ∀ e ∈ runTicks s (w0 :: ws), e.isStopProcedure = false)
    (hgo : stillRunning s w0 = false)
    (hT : s.temp_action_list = []) (hA : s.current_actions = []) (hcount : ¬ s.count < 4)
    (herr : w0.eval_error "( do_planning )" = false) (hmean : 9 / 10 ≤ w0.plan_success)
    (hsteps : ∀ t ∈ getOutgoing w0.plan_action_list, IsActionStep t) :
    ∃ gs : List RandGen, gs.length = (getOutgoing w0.plan_action_list).length
      ∧ (dispatchedActions (runTicks s (w0 :: ws))).take
            (flattenSteps (getOutgoing w0.plan_action_list).reverse gs).length
          = (flattenSteps (getOutgoing w0.plan_action_list).reverse gs).take
              (proceedingCalls s (w0 :: ws)) := by
  obtain ⟨s1, hA1, hT1, hD, hag⟩ := run_steady_planning s w0 h0 hgo hT hA hcount herr hmean
  have hno1 : ∀ e ∈ runTicks (run s w0).agent ws, e.isStopProcedure = false := fun e he =>
    hno e (by rw [runTicks]; exact List.mem_append_right _ he)
  by_cases hne : getOutgoing w0.plan_action_list = []
  · exact ⟨[], by simp [hne], by simp [hne, flattenSteps]⟩
  · obtain ⟨a, hda, hgood, hgs⟩ := dispatchNextAction_summary s1 w0 h0
      (by rw [hT1]; exact hsteps) (by rw [hT1]; exact Or.inr hne)
    rw [← hag] at hgood hgs
    obtain ⟨gs1, hlen1, htake⟩ := runTicks_steady ws (run s w0).agent hws hno1 hgood
    obtain ⟨gs, hlen, hF⟩ := hgs gs1 hlen1
    rw [hA1, hT1] at hF
    rw [hT1] at hlen
    simp only [List.reverse_nil, List.nil_append] at hF
    refine ⟨gs, hlen, ?_⟩
    rw [hF]
    simp only [runTicks, dispatchedActions_append, hD, hda, List.singleton_append,
      List.length_cons, List.take_succ_cons, htake, proceedingCalls, hgo,
      Bool.false_eq_true, if_false, Nat.add_comm 1]

theorem steps_dispatched_last_to_first_witness :
    getOutgoing twoStepWorld.plan_action_list = [leafA, leafB]
      ∧ stillRunning (run exhaustedAgent twoStepWorld).agent waitingWorld = true
      ∧ dispatchedActions (runTicks exhaustedAgent [twoStepWorld, waitingWorld, twoStepWorld])
          = [leafB, leafA]
      ∧ proceedingCalls exhaustedAgent (twoStepWorld :: [waitingWorld, twoStepWorld]) = 2
      ∧ ∃ gs : List RandGen, gs.length = (getOutgoing twoStepWorld.plan_action_list).length
        ∧ (dispatchedActions
              (runTicks exhaustedAgent (twoStepWorld :: [waitingWorld, twoStepWorld]))).take
              (flattenSteps (getOutgoing twoStepWorld.plan_action_list).reverse gs).length
            = (flattenSteps (getOutgoing twoStepWorld.plan_action_list).reverse gs).take
                (proceedingCalls exhaustedAgent (twoStepWorld :: [waitingWorld, twoStepWorld])) := by
  have hsteady : twoStepWorld.steady :=
    ⟨⟨by simp [twoStepWorld, sampleWorld], rfl⟩, fun _ => rfl, rfl, fun _ => ⟨0, rfl⟩⟩
  have hsteady2 : waitingWorld.steady :=
    ⟨⟨by simp [waitingWorld, twoStepWorld, sampleWorld], rfl⟩, fun _ => rfl, rfl,
      fun _ => ⟨0, rfl⟩⟩
  have hstep : ∀ t ∈ getOutgoing twoStepWorld.plan_action_list, IsActionStep t := by
    intro t ht
    have ht2 : t = leafA ∨ t = leafB := by
      simpa [twoStepWorld, getOutgoing] using ht
    rcases ht2 with rfl | rfl
    · exact ⟨rfl, fun g => by simp [leafA, flatten]⟩
    · exact ⟨rfl, fun g => by simp [leafB, flatten]⟩
  have hmean : (9 : ℚ) / 10 ≤ twoStepWorld.plan_success := by
    norm_num [twoStepWorld, sampleWorld]
  have hd : doPlanning { exhaustedAgent with cycleCount := twoStepWorld.cycleCount } twoStepWorld
      = ⟨{ exhaustedAgent with
            cycleCount := 1
            count := 0
            plan_selected_demand_goal := twoStepWorld.plan_selected_demand_goal
            plan_rule_list := []
            plan_context_list := []
            plan_action_list := [leafA, leafB]
            temp_action_list := [leafA, leafB] },
          [Event.schemeEval "( do_planning )", Event.getPlan true,
            Event.stimulateAtom leafA 10, Event.stimulateAtom leafB 10,
            Event.setCurrentDemandGoal twoStepWorld.plan_selected_demand_goal], .next⟩ := by
    simp [doPlanning, getPlan, twoStepWorld, sampleWorld, getOutgoing, exhaustedAgent, idleAgent,
      stimulateAtoms]
    norm_num
  have hr : (run exhaustedAgent twoStepWorld)
      = Step.andThen (doPlanning { exhaustedAgent with cycleCount := twoStepWorld.cycleCount }
          twoStepWorld) fun s2 => dispatchNextAction s2 twoStepWorld := rfl
  rw [hd] at hr
  have hE : runTicks exhaustedAgent [twoStepWorld, waitingWorld, twoStepWorld]
      = [Event.schemeEval "( do_planning )", Event.getPlan true,
          Event.stimulateAtom leafA 10, Event.stimulateAtom leafB 10,
          Event.setCurrentDemandGoal twoStepWorld.plan_selected_demand_goal,
          Event.executeAction 0 leafB, Event.runProcedure "B" [],
          Event.schemeEval "( reset_utterance_node \"utterance_sentences\" )",
          Event.executeAction 0 leafA, Event.runProcedure "A" [],
          Event.schemeEval "( reset_utterance_node \"utterance_sentences\" )"] := by
    rw [runTicks, hr]
    rfl
  have hno : ∀ e ∈ runTicks exhaustedAgent (twoStepWorld :: [waitingWorld, twoStepWorld]),
      e.isStopProcedure = false := by
    rw [hE]
    simp [Event.isStopProcedure]
  have hws : ∀ w ∈ [waitingWorld, twoStepWorld], w.steady := by
    intro w hw
    simp only [List.mem_cons, List.mem_singleton, List.not_mem_nil, or_false] at hw
    rcases hw with rfl | rfl
    · exact hsteady2
    · exact hsteady
  have hstill : stillRunning (run exhaustedAgent twoStepWorld).agent waitingWorld = true := by
    rw [hr]
    rfl
  have hD : dispatchedActions (runTicks exhaustedAgent [twoStepWorld, waitingWorld, twoStepWorld])
      = [leafB, leafA] := by
    rw [hE]
    rfl
  have hP : proceedingCalls exhaustedAgent (twoStepWorld :: [waitingWorld, twoStepWorld]) = 2 := by
    rw [proceedingCalls, hr]
    rfl
  exact ⟨rfl, hstill, hD, hP,
    steps_dispatched_last_to_first exhaustedAgent twoStepWorld [waitingWorld, twoStepWorld]
      hsteady hws hno rfl rfl rfl (by decide) rfl hmean hstep⟩

end PsiActionSelectionAgent
